import Mathlib

/-!
Verification development for the issues-document sync tool.

The repository has two core source files:
* `dev-loop/parse-issues.py` — parses a `.issues.md` document into issue
  records, finds the next eligible issue, and performs in-place
  status / dev-notes mutation of the document text.
* `sync-to-tracker/sync-to-tracker.py` — reconciles the parsed issues
  against a persisted sync-state store, driving an abstract tracker
  adapter (create / update_status / update_description / archive).

This file is a shallow embedding of those two files.  Python strings are
Lean `String`s (processed as `List Char`), Python dicts are association
lists, the tracker adapter is an oracle mapping a call index and call
description to a result, and the 12-hex-digit md5 digest used for
description fingerprints is abstracted as an arbitrary `digest` function
(the code only relies on it being a deterministic pure function).
-/

namespace IssuesSync

/-! ## Python text primitives

Helper functions mirroring the exact behaviour of the Python string and
`re` operations the source uses.  All scanning is on `List Char`. -/

/-- Whitespace as recognized by Python's `str.strip` / regex `\s`
(ASCII range): space, tab, newline, carriage return, vertical tab, form feed. -/
def pyIsSpace (c : Char) : Bool :=
  c == ' ' || c == '\t' || c == '\n' || c == '\r' || c == '\x0b' || c == '\x0c'

/-- Python `str.strip()` on a character list. -/
def stripChars (cs : List Char) : List Char :=
  ((cs.dropWhile pyIsSpace).reverse.dropWhile pyIsSpace).reverse

/-- Python `str.strip()`. -/
def pyStrip (s : String) : String := String.mk (stripChars s.data)

/-- Python `str.lower()` (ASCII). -/
def pyLower (s : String) : String := String.mk (s.data.map Char.toLower)

/-- Python `str.startswith(pre)`. -/
def pyStartsWith (pre s : String) : Bool := pre.data.isPrefixOf s.data

/-- Split on a fixed non-empty separator, Python `str.split(sep)` /
`re.split` with a literal pattern: leftmost non-overlapping matches.
Every step consumes at least one character, so a fuel of the input
length makes the recursion structural (the fuel-exhausted equation is
unreachable when fuel starts at the input length). -/
def splitOnAux (s0 : Char) (st : List Char) : Nat → List Char → List Char → List (List Char)
  | 0, _, acc => [acc.reverse]
  | _ + 1, [], acc => [acc.reverse]
  | fuel + 1, c :: rest, acc =>
    if (s0 :: st).isPrefixOf (c :: rest) then
      acc.reverse :: splitOnAux s0 st fuel (rest.drop st.length) []
    else
      splitOnAux s0 st fuel rest (c :: acc)

/-- Python `content.split(sep)` for a non-empty literal separator. -/
def splitOnStr (sep content : String) : List String :=
  match sep.data with
  | [] => [content]
  | s0 :: st => (splitOnAux s0 st content.data.length content.data []).map String.mk

/-- Python `str.replace(pat, rep)` for a non-empty pattern: replace all
non-overlapping occurrences left to right (fuel as in `splitOnAux`). -/
def replaceAllAux (p0 : Char) (pt rep : List Char) : Nat → List Char → List Char
  | 0, cs => cs
  | _ + 1, [] => []
  | fuel + 1, c :: rest =>
    if (p0 :: pt).isPrefixOf (c :: rest) then
      rep ++ replaceAllAux p0 pt rep fuel (rest.drop pt.length)
    else
      c :: replaceAllAux p0 pt rep fuel rest

/-- Python `s.replace(pat, rep)`. -/
def pyReplace (pat rep s : String) : String :=
  match pat.data with
  | [] => s
  | p0 :: pt => String.mk (replaceAllAux p0 pt rep.data s.data.length s.data)

/-- Python `'\n'.join(parts)`. -/
def joinLines : List String → String
  | [] => ""
  | [s] => s
  | s :: rest => s ++ "\n" ++ joinLines rest

/-! ## Regex tail `\s*(.+)`

Several of the source's patterns end in `\s*(.+)`: a greedy whitespace
run followed by a captured one-or-more run of non-newline characters.
With backtracking, the group is the maximal non-newline run following
the maximal whitespace run; when only whitespace remains, the engine
backtracks into the whitespace run and captures its last non-newline
character (if any), otherwise the match fails. -/

/-- The captured group of `\s*(.+)` applied at the start of `cs`,
or `none` when the pattern cannot match there. -/
def valueGroup (cs : List Char) : Option (List Char) :=
  let rest := cs.dropWhile pyIsSpace
  match rest with
  | _ :: _ => some (rest.takeWhile (fun c => c != '\n'))
  | [] =>
    -- all-whitespace tail: backtrack to the last non-newline whitespace char
    match ((cs.takeWhile pyIsSpace).filter (fun c => c != '\n')).getLast? with
    | some c => some [c]
    | none => none

/-! ## parse-issues.py -/

/-- One parsed issue record (`parse_issues` list element). -/
structure Issue where
  id : String
  title : String
  status : String
  dependencies : List String
  complexity : String
  layers : String
  files : String
  raw_block : String
deriving DecidableEq

/-- Try the header regex `###\s+(ISSUE-\d+):\s*(.+)` at the start of `cs`;
returns (issue id, raw captured title). -/
def matchIssueHeaderAt (cs : List Char) : Option (String × String) :=
  if "###".data.isPrefixOf cs then
    let r1 := cs.drop 3
    let ws := r1.takeWhile pyIsSpace
    if ws.isEmpty then none
    else
      let r2 := r1.drop ws.length
      if "ISSUE-".data.isPrefixOf r2 then
        let r3 := r2.drop 6
        let ds := r3.takeWhile Char.isDigit
        if ds.isEmpty then none
        else
          match r3.drop ds.length with
          | ':' :: r4 =>
            (valueGroup r4).map (fun g => (String.mk ("ISSUE-".data ++ ds), String.mk g))
          | _ => none
      else none
  else none

/-- Models `re.search` of the issue-header regex: leftmost position at which the
whole pattern matches. -/
def searchIssueHeader : List Char → Option (String × String)
  | [] => none
  | c :: rest =>
    match matchIssueHeaderAt (c :: rest) with
    | some r => some r
    | none => searchIssueHeader rest

/-- Models `re.search` of `label ++ \s*(.+)` (the `_extract_field` pattern with the
bold label spelled out): scan for the leftmost occurrence of the literal
label at which the value tail also matches. -/
def searchLabelValue (label : List Char) : List Char → Option (List Char)
  | [] => none
  | c :: rest =>
    if label.isPrefixOf (c :: rest) then
      match valueGroup ((c :: rest).drop label.length) with
      | some g => some g
      | none => searchLabelValue label rest
    else searchLabelValue label rest

/-- Models `_extract_field(block, field_name)`: value of the first
`**<field>:** <value>` match in the block, stripped. -/
def extractField (block field : String) : Option String :=
  (searchLabelValue ("**" ++ field ++ ":**").data block.data).map
    (fun g => pyStrip (String.mk g))

/-- Python truthiness of `value or default` for an optional string:
`None` and the empty string both fall back to the default. -/
def pyOr (v : Option String) (d : String) : String :=
  match v with
  | some s => if s = "" then d else s
  | none => d

/-- Body of `re.findall(r'ISSUE-\d+', cs)` (fuel as in `splitOnAux`): all
leftmost non-overlapping matches, greedy digit runs. -/
def findIdsAux : Nat → List Char → List String
  | 0, _ => []
  | _ + 1, [] => []
  | fuel + 1, c :: rest =>
    if "ISSUE-".data.isPrefixOf (c :: rest) then
      let after := (c :: rest).drop 6
      let ds := after.takeWhile Char.isDigit
      if ds.isEmpty then findIdsAux fuel rest
      else String.mk ("ISSUE-".data ++ ds) :: findIdsAux fuel (after.drop ds.length)
    else findIdsAux fuel rest

/-- Models `re.findall(r'ISSUE-\d+', cs)`. -/
def findIssueIds (cs : List Char) : List String := findIdsAux cs.length cs

/-- One block of `parse_issues`: `None` when the block has no recognized
`### ISSUE-<n>: <title>` header (the block is silently skipped). -/
def parseBlock (block : String) : Option Issue :=
  match searchIssueHeader block.data with
  | none => none
  | some (issue_id, rawTitle) =>
    let status := pyOr (extractField block "Status") "Backlog"
    let deps_raw := pyOr (extractField block "Dependencies") "none"
    let complexity := pyOr (extractField block "Complexity") "M"
    let layers := pyOr (extractField block "Layers") ""
    let files := pyOr (extractField block "Files likely touched") ""
    let deps :=
      if pyLower (pyStrip deps_raw) ≠ "none" then findIssueIds deps_raw.data else []
    some
      { id := issue_id
        title := pyStrip rawTitle
        status := pyStrip status
        dependencies := deps
        complexity := pyStrip complexity
        layers := pyStrip layers
        files := pyStrip files
        raw_block := pyStrip block }

/-- Models `parse_issues` applied to the document text (the file read is
abstracted away: the caller supplies the content string). -/
def parse_issues (content : String) : List Issue :=
  (splitOnStr "\n---\n" content).filterMap parseBlock

/-- Models `find_next_issue(issues)`: the first issue that is `Ready` and whose
every dependency id is among the ids with status `Done`. -/
def find_next_issue (issues : List Issue) : Option Issue :=
  let done_ids := (issues.filter (fun i => i.status == "Done")).map Issue.id
  issues.find? (fun i => i.status == "Ready" && i.dependencies.all (fun d => done_ids.contains d))

/-- Specification-side eligibility predicate, written from the claim's
words: status is `Ready` and every dependency id appears in the set of
ids with status `Done` in the same document. -/
def EligibleSpec (issues : List Issue) (i : Issue) : Prop :=
  i.status = "Ready" ∧
    ∀ d ∈ i.dependencies, ∃ j ∈ issues, j.id = d ∧ j.status = "Done"

instance (issues : List Issue) (i : Issue) : Decidable (EligibleSpec issues i) := by
  unfold EligibleSpec; infer_instance

/-! ## In-place mutators (`update_status`, `update_dev_notes`)

`update_status` uses the pattern
`(###\s+<id>:.*?\n(?:.*?\n)*?)\*\*Status:\*\*\s*\S+` (first `re.search`
for presence, then `re.sub` with the group boundary moved after the
label).  With lazy matching this means: at the leftmost occurrence of
`###<ws+><id>:` followed by a newline, scan forward line start by line
start for the first line beginning with `**Status:**` whose tail, after
a greedy whitespace run (which may cross newlines), still contains a
non-whitespace run; that run is what gets replaced.  On no match the
script exits fatally without writing the file (modelled as `none`). -/

/-- Literal head of both mutator patterns: `###\s+<id>:`.  Returns the
consumed characters and the rest, or `none` if it does not match here. -/
def matchHeadAt (idc : List Char) (cs : List Char) : Option (List Char × List Char) :=
  if "###".data.isPrefixOf cs then
    let r1 := cs.drop 3
    let ws := r1.takeWhile pyIsSpace
    if ws.isEmpty then none
    else
      let r2 := r1.drop ws.length
      if (idc ++ [':']).isPrefixOf r2 then
        some ("###".data ++ ws ++ idc ++ [':'], r2.drop (idc.length + 1))
      else none
  else none

def statusLabel : List Char := "**Status:**".data

/-- The tail `\s*\S+` can match at this position: after skipping all
whitespace some non-whitespace character remains. -/
def afterLabelOk (cs : List Char) : Bool := !(cs.dropWhile pyIsSpace).isEmpty

/-- Scan line starts (the flag records whether the previous character was
a newline) for the first `**Status:**` label whose `\s*\S+` tail matches;
returns the characters skipped before the label and the rest after it. -/
def findStatusLineAux : Bool → List Char → Option (List Char × List Char)
  | _, [] => none
  | atStart, c :: rest =>
    if atStart && statusLabel.isPrefixOf (c :: rest)
        && afterLabelOk ((c :: rest).drop statusLabel.length) then
      some ([], (c :: rest).drop statusLabel.length)
    else
      match findStatusLineAux (c == '\n') rest with
      | some (sk, r) => some (c :: sk, r)
      | none => none

/-- Try the whole `update_status` pattern at the start of `cs`.  On
success: (characters from the match start through `**Status:**`, rest of
the content after the replaced `\s*\S+` tail). -/
def matchStatusPatAt (idc : List Char) (cs : List Char) : Option (List Char × List Char) :=
  match matchHeadAt idc cs with
  | none => none
  | some (hd, r1) =>
    -- `.*?\n`: the remainder of the header line, up to and including
    -- the first newline; without a newline the pattern cannot match here
    let line0 := r1.takeWhile (fun c => c != '\n')
    match r1.drop line0.length with
    | [] => none
    | _ :: r2 =>
      match findStatusLineAux true r2 with
      | none => none
      | some (sk, afterLabel) =>
        let afterWs := afterLabel.dropWhile pyIsSpace
        let rest := afterWs.dropWhile (fun c => !(pyIsSpace c))
        some (hd ++ line0 ++ '\n' :: (sk ++ statusLabel), rest)

/-- Models `re.search` of the `update_status` pattern: leftmost start position
at which the whole pattern matches.  Returns (before, group through the
label, rest after match). -/
def searchStatusPat (idc : List Char) : List Char → Option (List Char × List Char × List Char)
  | [] => none
  | c :: rest =>
    match matchStatusPatAt idc (c :: rest) with
    | some (g, after) => some ([], g, after)
    | none =>
      match searchStatusPat idc rest with
      | some (b, g, a) => some (c :: b, g, a)
      | none => none

/-- Models `update_status(filepath, issue_id, new_status)` on the document text:
`none` models the fatal `sys.exit(1)` (file left unmodified), `some`
is the rewritten text that gets written back. -/
def update_status (content issue_id new_status : String) : Option String :=
  match searchStatusPat issue_id.data content.data with
  | none => none
  | some (b, g, a) => some (String.mk (b ++ g ++ ' ' :: new_status.data ++ a))

def notesLabel : List Char := "**Dev notes:**".data

/-- First occurrence of a (non-empty) literal substring; returns the
characters before it and the characters after it. -/
def findSubAfter (needle : List Char) : List Char → Option (List Char × List Char)
  | [] => none
  | c :: rest =>
    if needle.isPrefixOf (c :: rest) then some ([], (c :: rest).drop needle.length)
    else
      match findSubAfter needle rest with
      | some (b, a) => some (c :: b, a)
      | none => none

/-- End of the lazily-captured notes group: the first position whose
remaining text starts with `\n---` or `\n###`, or the end of the text
(the `(?=\n---|\n###|\Z)` lookahead).  Returns (group, rest). -/
def notesStop : List Char → (List Char × List Char)
  | [] => ([], [])
  | c :: rest =>
    if "\n---".data.isPrefixOf (c :: rest) || "\n###".data.isPrefixOf (c :: rest) then
      ([], c :: rest)
    else
      let pr := notesStop rest
      (c :: pr.1, pr.2)

/-- Try the `update_dev_notes` pattern head at the start of `cs`: the
header followed (lazily, with `re.DOTALL`) by the first occurrence of
`**Dev notes:**` anywhere after it.  On success: (characters from match
start through the label, rest after the label). -/
def matchNotesPatAt (idc : List Char) (cs : List Char) : Option (List Char × List Char) :=
  match matchHeadAt idc cs with
  | none => none
  | some (hd, r1) =>
    match findSubAfter notesLabel r1 with
    | none => none
    | some (mid, after) => some (hd ++ mid ++ notesLabel, after)

/-- Models `re.search` of the `update_dev_notes` pattern (leftmost start). -/
def searchNotesPat (idc : List Char) : List Char → Option (List Char × List Char × List Char)
  | [] => none
  | c :: rest =>
    match matchNotesPatAt idc (c :: rest) with
    | some (g, after) => some ([], g, after)
    | none =>
      match searchNotesPat idc rest with
      | some (b, g, a) => some (c :: b, g, a)
      | none => none

def placeholderText : String := "_(filled by dev-loop during implementation)_"

/-- Models `update_dev_notes(filepath, issue_id, notes)` on the document text:
`none` models the non-fatal warning path (no match, no write); `some` is
the rewritten text.  The captured existing notes are appended to with a
newline separator unless empty or equal to the placeholder text. -/
def update_dev_notes (content issue_id notes : String) : Option String :=
  match searchNotesPat issue_id.data content.data with
  | none => none
  | some (b, g, afterLabel) =>
    let ws := afterLabel.takeWhile pyIsSpace
    let rest := afterLabel.dropWhile pyIsSpace
    let pr := notesStop rest
    let existing := pyStrip (String.mk pr.1)
    let newNotes :=
      if existing ≠ "" ∧ existing ≠ placeholderText then existing ++ "\n" ++ notes
      else notes
    some (String.mk (b ++ g ++ ws) ++ " " ++ newNotes ++ String.mk pr.2)

/-! ## sync-to-tracker.py: summary extraction -/

/-- The metadata field prefixes skipped by `extract_human_summary`. -/
def metaPrefixList : List String :=
  ["### ISSUE-", "**Status:**", "**Dependencies:**", "**Complexity:**",
   "**Layers:**", "**Files likely touched:**", "**Dev notes:**"]

/-- Models `any(stripped.startswith(p) for p in metadata_prefixes)`. -/
def isMetadataLine (stripped : String) : Bool :=
  metaPrefixList.any (fun p => pyStartsWith p stripped)

/-- Accumulator of the `extract_human_summary` line walk.
`inAcceptance` models `section == 'acceptance'` (the Python variable is
only ever `None` or `'acceptance'`). -/
structure SumSt where
  description_lines : List String
  acceptance_lines : List String
  inAcceptance : Bool
deriving DecidableEq

/-- Checkbox rewriting:
`stripped.replace('- [x] ', '✅ ').replace('- [ ] ', '☐ ')`. -/
def checkboxToText (stripped : String) : String :=
  pyReplace "- [ ] " "☐ " (pyReplace "- [x] " "✅ " stripped)

/-- One iteration of the `extract_human_summary` line loop. -/
def summaryStep (st : SumSt) (line : String) : SumSt :=
  let stripped := pyStrip line
  if stripped = "" ∧ st.description_lines = [] ∧ st.inAcceptance = false then st
  else if pyStartsWith "#" stripped then st
  else if isMetadataLine stripped then st
  else if pyStartsWith "**Acceptance criteria:**" stripped then
    { st with inAcceptance := true }
  else if st.inAcceptance then
    if pyStartsWith "- [" stripped then
      { st with acceptance_lines := st.acceptance_lines ++ [checkboxToText stripped] }
    else if stripped ≠ "" ∧ pyStartsWith "**" stripped = false then
      { st with acceptance_lines := st.acceptance_lines ++ [stripped] }
    else if pyStartsWith "**" stripped then { st with inAcceptance := false }
    else st
  else if stripped ≠ "" ∧ pyStartsWith "**" stripped = false then
    { st with description_lines := st.description_lines ++ [stripped] }
  else st

/-- Models `extract_human_summary(raw_block)`. -/
def extract_human_summary (raw_block : String) : String :=
  let st := (splitOnStr "\n" raw_block).foldl summaryStep ⟨[], [], false⟩
  let parts :=
    (if st.description_lines = [] then [] else [joinLines st.description_lines]) ++
    (if st.acceptance_lines = [] then []
     else ["\nCriteria:\n" ++ joinLines st.acceptance_lines])
  joinLines parts

/-- Models `_hash(text)`: empty text hashes to the empty string; otherwise the
12-hex-digit md5 digest, abstracted as the pure function `digest`. -/
def pyHash (digest : String → String) (text : String) : String :=
  if text = "" then "" else digest text

/-! ## sync-to-tracker.py: state store and reconciliation engine -/

/-- Association-list primitives modelling Python dict operations
(single occurrence per key in any genuine dict). -/
def alookup {α : Type} : List (String × α) → String → Option α
  | [], _ => none
  | (k, v) :: t, key => if k = key then some v else alookup t key

/-- Models `d[key] = v`: replace the first binding in place, or append. -/
def aset {α : Type} : List (String × α) → String → α → List (String × α)
  | [], key, v => [(key, v)]
  | (k, w) :: t, key, v =>
    if k = key then (k, v) :: t else (k, w) :: aset t key v

/-- Models `del d[key]`. -/
def aerase {α : Type} (l : List (String × α)) (key : String) : List (String × α) :=
  l.filter (fun p => p.1 ≠ key)

/-- Models `list(d.keys())`. -/
def akeys {α : Type} (l : List (String × α)) : List String := l.map Prod.fst

/-- One sync-state entry (value of `state[issue_id]`).  A freshly loaded
entry may lack `description_hash`, hence the `Option`. -/
structure StateEntry where
  tracker_id : String
  last_status : String
  description_hash : Option String
deriving DecidableEq

abbrev StateMap := List (String × StateEntry)

/-- The `NORMALIZED_STATUSES` mapping table. -/
def NORMALIZED_STATUSES : List (String × String) :=
  [("Backlog", "backlog"), ("Ready", "ready"), ("In Progress", "in_progress"),
   ("In Review", "in_review"), ("Done", "done")]

/-- Models `NORMALIZED_STATUSES.get(status, "backlog")`. -/
def normalizeStatus (s : String) : String :=
  match alookup NORMALIZED_STATUSES s with
  | some t => t
  | none => "backlog"

/-- One adapter method invocation, with its arguments. -/
inductive AdapterCall where
  | create (title status description complexity layers : String)
  | update_status (tracker_id status : String)
  | update_description (tracker_id description : String)
  | archive (tracker_id : String)
deriving DecidableEq

/-- The tracker adapter, as an oracle: given the number of calls made so
far (so responses may depend on history) and the call, it either returns
a result string (the tracker id for `create`; ignored otherwise) or
raises an `AdapterError` (modelled as `.error`). -/
abbrev AdapterOracle := Nat → AdapterCall → Except String String

/-- The running state of one `sync()` invocation: the in-memory state
map, the four counters, the adapter calls attempted so far (in order),
and the pending exception, if one was raised. -/
structure SyncSt where
  state : StateMap
  created : Nat := 0
  updated : Nat := 0
  unchanged : Nat := 0
  archived : Nat := 0
  calls : List AdapterCall := []
  error : Option String := none
deriving DecidableEq

/-- Attempt one adapter call: the call is recorded, and a failing
response records the exception (which, as in Python, aborts the rest of
the pass: every later step is a no-op once `error` is set). -/
def doCall (adapter : AdapterOracle) (s : SyncSt) (c : AdapterCall) :
    SyncSt × Except String String :=
  match adapter s.calls.length c with
  | .ok v => ({ s with calls := s.calls ++ [c] }, .ok v)
  | .error e => ({ s with calls := s.calls ++ [c], error := some e }, .error e)

/-- Body of the orphan-archival loop for one orphaned issue id. -/
def archiveOrphan (adapter : AdapterOracle) (dry_run : Bool) (s : SyncSt)
    (issue_id : String) : SyncSt :=
  if s.error.isSome then s
  else
    match alookup s.state issue_id with
    | none => s  -- unreachable for a genuine dict: orphans come from its keys
    | some tracker_item =>
      if dry_run then { s with archived := s.archived + 1 }
      else
        let pr := doCall adapter s (.archive tracker_item.tracker_id)
        match pr.2 with
        | .error _ => pr.1
        | .ok _ =>
          { pr.1 with
            state := aerase pr.1.state issue_id
            archived := pr.1.archived + 1 }

/-- Body of the create/update loop for one parsed issue. -/
def processIssue (adapter : AdapterOracle) (dry_run : Bool)
    (digest : String → String) (s : SyncSt) (issue : Issue) : SyncSt :=
  if s.error.isSome then s
  else
    let issue_id := issue.id
    let normalized_status := normalizeStatus issue.status
    let tracker_item := alookup s.state issue_id
    let summary := extract_human_summary issue.raw_block
    let summary_hash := pyHash digest summary
    match tracker_item with
    | none =>
      -- new issue: create in tracker
      if dry_run then { s with created := s.created + 1 }
      else
        let pr := doCall adapter s
          (.create (issue_id ++ ": " ++ issue.title) normalized_status summary
            issue.complexity issue.layers)
        match pr.2 with
        | .error _ => pr.1
        | .ok tracker_id =>
          { pr.1 with
            state := aset pr.1.state issue_id
              ⟨tracker_id, normalized_status, some summary_hash⟩
            created := pr.1.created + 1 }
    | some ti =>
      let status_changed := ti.last_status ≠ normalized_status
      let desc_changed := ti.description_hash ≠ some summary_hash
      if status_changed then
        if dry_run then { s with updated := s.updated + 1 }
        else
          let pr := doCall adapter s (.update_status ti.tracker_id normalized_status)
          match pr.2 with
          | .error _ => pr.1
          | .ok _ =>
            -- last_status is updated; the hash is backfilled only if missing
            let ti' : StateEntry :=
              ⟨ti.tracker_id, normalized_status,
               some (ti.description_hash.getD summary_hash)⟩
            { pr.1 with
              state := aset pr.1.state issue_id ti'
              updated := pr.1.updated + 1 }
      else if desc_changed ∧ summary ≠ "" ∧ ti.description_hash.isSome then
        -- only push the description if a hash existed before
        if dry_run then { s with updated := s.updated + 1 }
        else
          let pr := doCall adapter s (.update_description ti.tracker_id summary)
          match pr.2 with
          | .error _ => pr.1
          | .ok _ =>
            { pr.1 with
              state := aset pr.1.state issue_id
                ⟨ti.tracker_id, ti.last_status, some summary_hash⟩
              updated := pr.1.updated + 1 }
      else
        -- unchanged; backfill the hash silently if missing (also in dry-run,
        -- mirroring the in-memory mutation the script performs there)
        let s1 :=
          if ti.description_hash.isNone then
            { s with
              state := aset s.state issue_id
                ⟨ti.tracker_id, ti.last_status, some summary_hash⟩ }
          else s
        { s1 with unchanged := s1.unchanged + 1 }

/-- Models `[iid for iid in list(state.keys()) if iid not in issue_ids]`. -/
def orphanedOf (issues : List Issue) (state0 : StateMap) : List String :=
  (akeys state0).filter (fun iid => !(issues.map Issue.id).contains iid)

/-- The reconciliation pass of `sync()` over already-parsed issues and an
already-loaded per-document state map (config/adapter construction and
console output are external to this model). -/
def syncCore (adapter : AdapterOracle) (dry_run : Bool) (digest : String → String)
    (issues : List Issue) (state0 : StateMap) : SyncSt :=
  let s1 := (orphanedOf issues state0).foldl (archiveOrphan adapter dry_run)
    { state := state0 }
  issues.foldl (processIssue adapter dry_run digest) s1

/-- Models `load_sync_state(issues_file)` over the whole persisted store. -/
def load_sync_state (issues_file : String) (all_state : List (String × StateMap)) :
    StateMap :=
  (alookup all_state issues_file).getD []

/-- Models `save_sync_state(issues_file, state)`: rewrite this document's slot,
preserving the other documents' entries. -/
def save_sync_state (issues_file : String) (state : StateMap)
    (all_state : List (String × StateMap)) : List (String × StateMap) :=
  aset all_state issues_file state

/-- A whole `sync()` run against the persisted store file: the pass runs
on the loaded state, and the store is written back only when the pass
completed without an adapter exception and not in dry-run mode (the
Python `save_sync_state` call sits after the loops, guarded by
`if not dry_run`, and an exception propagates past it). -/
def runSyncOnFile (adapter : AdapterOracle) (dry_run : Bool)
    (digest : String → String) (issues_file : String) (issues : List Issue)
    (all_state : List (String × StateMap)) : List (String × StateMap) × SyncSt :=
  let s := syncCore adapter dry_run digest issues (load_sync_state issues_file all_state)
  if s.error = none ∧ dry_run = false then
    (save_sync_state issues_file s.state all_state, s)
  else (all_state, s)

/-! ## General list lemmas -/

/-- The function `List.find?` returns the first element satisfying the predicate. -/
theorem find?_first {α : Type} (p : α → Bool) (l : List α) (a : α) :
    l.find? p = some a ↔
      ∃ l₁ l₂, l = l₁ ++ a :: l₂ ∧ p a = true ∧ ∀ x ∈ l₁, p x = false := by
  induction l with
  | nil =>
    constructor
    · intro h; simp [List.find?_nil] at h
    · rintro ⟨l₁, l₂, h, -, -⟩; exact absurd h (by simp)
  | cons b t ih =>
    cases hb : p b with
    | true =>
      rw [List.find?_cons_of_pos _ hb]
      constructor
      · intro h
        cases Option.some.inj h
        exact ⟨[], t, rfl, hb, by simp⟩
      · rintro ⟨l₁, l₂, heq, hpa, hfst⟩
        cases l₁ with
        | nil =>
          rw [List.nil_append] at heq
          cases (List.cons.inj heq).1
          rfl
        | cons c l₁' =>
          rw [List.cons_append] at heq
          have hbc := (List.cons.inj heq).1
          have := hfst c (List.mem_cons_self c l₁')
          rw [← hbc, hb] at this
          cases this
    | false =>
      rw [List.find?_cons_of_neg _ (by rw [hb]; exact Bool.false_ne_true), ih]
      constructor
      · rintro ⟨l₁, l₂, heq, hpa, hfst⟩
        refine ⟨b :: l₁, l₂, by rw [List.cons_append, heq], hpa, ?_⟩
        intro x hx
        rcases List.mem_cons.mp hx with rfl | hx
        · exact hb
        · exact hfst x hx
      · rintro ⟨l₁, l₂, heq, hpa, hfst⟩
        cases l₁ with
        | nil =>
          rw [List.nil_append] at heq
          cases (List.cons.inj heq).1
          rw [hpa] at hb; cases hb
        | cons c l₁' =>
          rw [List.cons_append] at heq
          exact ⟨l₁', l₂, (List.cons.inj heq).2, hpa,
            fun x hx => hfst x (List.mem_cons_of_mem c hx)⟩

/-- The Boolean scanned by `find_next_issue` decides `EligibleSpec`. -/
theorem eligible_bool_iff (issues : List Issue) (i : Issue) :
    (i.status == "Ready" &&
        i.dependencies.all (fun d =>
          ((issues.filter (fun j => j.status == "Done")).map Issue.id).contains d)) = true
      ↔ EligibleSpec issues i := by
  simp only [EligibleSpec, Bool.and_eq_true, beq_iff_eq, List.all_eq_true,
    List.contains_eq_any_beq, List.any_eq_true, List.mem_map, List.mem_filter]
  constructor
  · rintro ⟨hst, hdep⟩
    refine ⟨hst, fun d hd => ?_⟩
    rcases hdep d hd with ⟨x, ⟨j, ⟨hj, hjd⟩, rfl⟩, hbeq⟩
    exact ⟨j, hj, by simpa using hbeq.symm, by simpa using hjd⟩
  · rintro ⟨hst, hdep⟩
    refine ⟨hst, fun d hd => ?_⟩
    rcases hdep d hd with ⟨j, hj, hid, hdone⟩
    exact ⟨j.id, ⟨j, ⟨hj, by simpa using hdone⟩, rfl⟩, by simpa using hid.symm⟩

/-! ## Claim theorems: parser and document mutators -/

/-- Claim C6: `find_next_issue` returns the first issue in document order
that is `Ready` with every dependency id among the ids having status
`Done` in the same document (an id absent from the document is
unsatisfied, an empty dependency list is satisfied), and the `none`
sentinel when no issue qualifies. -/
theorem C6_next_eligible (issues : List Issue) :
    (find_next_issue issues = none ↔ ∀ i ∈ issues, ¬ EligibleSpec issues i) ∧
    (∀ i, find_next_issue issues = some i →
      EligibleSpec issues i ∧
      ∃ pre post, issues = pre ++ i :: post ∧ ∀ j ∈ pre, ¬ EligibleSpec issues j) := by
  constructor
  · rw [find_next_issue, List.find?_eq_none]
    constructor
    · intro h i hi he
      exact h i hi ((eligible_bool_iff issues i).mpr he)
    · intro h i hi hb
      exact h i hi ((eligible_bool_iff issues i).mp hb)
  · intro i hfind
    rw [find_next_issue, find?_first] at hfind
    rcases hfind with ⟨pre, post, heq, hpa, hfst⟩
    refine ⟨(eligible_bool_iff issues i).mp hpa, pre, post, heq, fun j hj hel => ?_⟩
    have := hfst j hj
    rw [(eligible_bool_iff issues j).mpr hel] at this
    cases this

/-- Claim C6 witness: on the two-issue demo document scenario the query
returns the dependency-free `Ready` issue first. -/
theorem C6_witness :
    EligibleSpec
        [⟨"ISSUE-1", "A", "Ready", [], "M", "", "", ""⟩,
         ⟨"ISSUE-2", "B", "Ready", ["ISSUE-1"], "M", "", "", ""⟩]
        ⟨"ISSUE-1", "A", "Ready", [], "M", "", "", ""⟩ ∧
      ∃ pre post,
        [⟨"ISSUE-1", "A", "Ready", [], "M", "", "", ""⟩,
         ⟨"ISSUE-2", "B", "Ready", ["ISSUE-1"], "M", "", "", ""⟩] =
            pre ++ ⟨"ISSUE-1", "A", "Ready", [], "M", "", "", ""⟩ :: post ∧
          ∀ j ∈ pre,
            ¬ EligibleSpec
              [⟨"ISSUE-1", "A", "Ready", [], "M", "", "", ""⟩,
               ⟨"ISSUE-2", "B", "Ready", ["ISSUE-1"], "M", "", "", ""⟩] j :=
  (C6_next_eligible _).2 _ (by decide)

/-- Claim C3 (code bug witness): updating the status of an issue whose
current value is the multi-word `In Progress` to `Done` leaves the
second word behind — the regex tail `\s*\S+` replaces only the first
whitespace-delimited token — so re-parsing yields status
`Done Progress`, not `Done`, and the field value is corrupted. -/
theorem C3_bug_eval :
    update_status "### ISSUE-1: Title\n**Status:** In Progress\n" "ISSUE-1" "Done" =
        some "### ISSUE-1: Title\n**Status:** Done Progress\n" ∧
      (parse_issues "### ISSUE-1: Title\n**Status:** Done Progress\n").map Issue.status =
        ["Done Progress"] := by
  constructor
  · rfl
  · rfl

/-- Claim C9 (code bug witness): when the target issue has no `Status`
field at all, the mutator's lazily-matching pattern crosses the block
delimiter and rewrites the *next* issue's `Status` field instead of
failing fatally with the document unmodified.  Here `ISSUE-1` has no
status (it parses to the default `Backlog`), yet `update_status` on
`ISSUE-1` succeeds and flips `ISSUE-2`'s status to `Done`. -/
theorem C9_bug_eval :
    (parse_issues
          "### ISSUE-1: First\n**Complexity:** S\n---\n### ISSUE-2: Second\n**Status:** Ready\n").map
        Issue.status = ["Backlog", "Ready"] ∧
      update_status
          "### ISSUE-1: First\n**Complexity:** S\n---\n### ISSUE-2: Second\n**Status:** Ready\n"
          "ISSUE-1" "Done" =
        some "### ISSUE-1: First\n**Complexity:** S\n---\n### ISSUE-2: Second\n**Status:** Done\n" := by
  constructor
  · rfl
  · rfl

/-- Claim C7 counterexample: inside acceptance mode, a bold-labeled field
line that is one of the known metadata fields (`**Dev notes:** x`) does
*not* end acceptance mode — it is skipped by the metadata check before
the acceptance branch runs — so the later line `some prose` is still
collected as acceptance content, contradicting the claim that no line
after such a field line is treated as acceptance content. -/
theorem C7_cex :
    extract_human_summary "**Acceptance criteria:**\n- [ ] a\n**Dev notes:** x\nsome prose" =
      "\nCriteria:\n☐ a\nsome prose" := by rfl

/-- A character list with `**` as a prefix starts with two stars. -/
theorem two_star_shape (l : List Char) (h : List.isPrefixOf ('*' :: '*' :: []) l = true) :
    ∃ rest, l = '*' :: '*' :: rest := by
  cases l with
  | nil => simp [List.isPrefixOf] at h
  | cons c l' =>
    cases l' with
    | nil => simp [List.isPrefixOf] at h
    | cons d rest =>
      simp only [List.isPrefixOf, Bool.and_eq_true, beq_iff_eq] at h
      exact ⟨rest, by rw [← h.1, ← h.2.1]⟩

/-- Claim C7 (amended): once acceptance mode has begun, a known metadata
field line leaves the walk state entirely unchanged (acceptance mode
stays on, nothing is emitted), while a bold-labeled line that is neither
a metadata field nor the acceptance marker (nor a checkbox — a `**`-led
line never is) ends acceptance mode without contributing content. -/
theorem C7_field_exit_amended (st : SumSt) (line : String)
    (hacc : st.inAcceptance = true) :
    (isMetadataLine (pyStrip line) = true → summaryStep st line = st) ∧
    (pyStartsWith "**" (pyStrip line) = true →
      isMetadataLine (pyStrip line) = false →
      pyStartsWith "**Acceptance criteria:**" (pyStrip line) = false →
      summaryStep st line = { st with inAcceptance := false }) := by
  constructor
  · intro hmeta
    rw [summaryStep]
    have h1 : ¬ (pyStrip line = "" ∧ st.description_lines = [] ∧ st.inAcceptance = false) := by
      rintro ⟨-, -, h3⟩; rw [hacc] at h3; cases h3
    rw [if_neg h1]
    by_cases h2 : pyStartsWith "#" (pyStrip line) = true
    · rw [if_pos h2]
    · rw [if_neg h2, if_pos hmeta]
  · intro hbold hmeta hmarker
    obtain ⟨rest, hdata⟩ :=
      two_star_shape (pyStrip line).data (by exact hbold)
    have hne : pyStrip line ≠ "" := by
      intro h
      have h0 : ([] : List Char) = '*' :: '*' :: rest := by rw [h] at hdata; exact hdata
      cases h0
    have hhash : pyStartsWith "#" (pyStrip line) = false := by
      show List.isPrefixOf "#".data (pyStrip line).data = false
      rw [hdata]
      rfl
    have hcb : pyStartsWith "- [" (pyStrip line) = false := by
      show List.isPrefixOf "- [".data (pyStrip line).data = false
      rw [hdata]
      rfl
    rw [summaryStep]
    have h1 : ¬ (pyStrip line = "" ∧ st.description_lines = [] ∧ st.inAcceptance = false) := by
      rintro ⟨h, -, -⟩; exact hne h
    rw [if_neg h1, if_neg (by rw [hhash]; exact Bool.false_ne_true),
      if_neg (by rw [hmeta]; exact Bool.false_ne_true),
      if_neg (by rw [hmarker]; exact Bool.false_ne_true),
      if_pos (show st.inAcceptance = true from hacc),
      if_neg (by rw [hcb]; exact Bool.false_ne_true),
      if_neg (show ¬ (pyStrip line ≠ "" ∧ pyStartsWith "**" (pyStrip line) = false) by
        rintro ⟨-, h⟩; rw [hbold] at h; cases h),
      if_pos hbold]

/-! ## Association-list lemmas -/

theorem alookup_aset {α : Type} (l : List (String × α)) (k : String) (v : α) (k2 : String) :
    alookup (aset l k v) k2 = if k = k2 then some v else alookup l k2 := by
  induction l with
  | nil => by_cases h : k = k2 <;> simp [aset, alookup, h]
  | cons p t ih =>
    obtain ⟨k0, w⟩ := p
    by_cases h0 : k0 = k
    · by_cases h : k = k2
      · simp [aset, alookup, h0, h]
      · have h2 : ¬ k0 = k2 := fun hh => h (h0.symm.trans hh)
        simp [aset, alookup, h0, h, h2]
    · by_cases h : k0 = k2
      · have hkk : ¬ k = k2 := fun hh => h0 (h.trans hh.symm)
        have h0x : ¬ k2 = k := fun hh => h0 (h.trans hh)
        simp [aset, alookup, h0, h, hkk, h0x]
      · simp [aset, alookup, h0, h, ih]

theorem alookup_aerase {α : Type} (l : List (String × α)) (k k2 : String) :
    alookup (aerase l k) k2 = if k = k2 then none else alookup l k2 := by
  induction l with
  | nil => by_cases h : k = k2 <;> simp [aerase, alookup, h]
  | cons p t ih =>
    obtain ⟨k0, w⟩ := p
    by_cases h0 : k0 = k
    · by_cases h : k = k2
      · simpa [aerase, alookup, h0, h] using ih
      · have h2 : ¬ k0 = k2 := fun hh => h (h0.symm.trans hh)
        simpa [aerase, alookup, h0, h, h2] using ih
    · by_cases h : k0 = k2
      · have hkk : ¬ k = k2 := fun hh => h0 (h.trans hh.symm)
        have h0x : ¬ k2 = k := fun hh => h0 (h.trans hh)
        simp [aerase, alookup, h0, h, hkk, h0x]
      · simpa [aerase, alookup, h0, h] using ih

theorem alookup_isSome_of_mem_akeys {α : Type} {l : List (String × α)} {k : String}
    (h : k ∈ akeys l) : (alookup l k).isSome = true := by
  induction l with
  | nil => simp [akeys] at h
  | cons p t ih =>
    obtain ⟨k0, w⟩ := p
    by_cases h0 : k0 = k
    · simp [alookup, h0]
    · rcases List.mem_cons.mp h with h1 | h1
      · exact absurd h1.symm h0
      · simpa [alookup, h0] using ih h1

/-! ## Step-level sync lemmas -/

/-- Both loop bodies are no-ops once an exception is pending. -/
theorem archiveOrphan_absorb (a : AdapterOracle) (d : Bool) (s : SyncSt) (j : String)
    (h : s.error.isSome = true) : archiveOrphan a d s j = s := by
  rw [archiveOrphan, if_pos h]

theorem processIssue_absorb (a : AdapterOracle) (d : Bool) (g : String → String)
    (s : SyncSt) (i : Issue) (h : s.error.isSome = true) : processIssue a d g s i = s := by
  rw [processIssue, if_pos h]

theorem foldl_absorb {β : Type} (step : SyncSt → β → SyncSt)
    (habs : ∀ s x, s.error.isSome = true → step s x = s) (s : SyncSt) (l : List β)
    (h : s.error.isSome = true) : l.foldl step s = s := by
  induction l with
  | nil => rfl
  | cons x t ih => rw [List.foldl_cons, habs s x h]; exact ih

theorem foldl_error_none_backward {β : Type} (step : SyncSt → β → SyncSt)
    (habs : ∀ s x, s.error.isSome = true → step s x = s) (s : SyncSt) (l : List β)
    (h : (l.foldl step s).error = none) : s.error = none := by
  cases he : s.error with
  | none => rfl
  | some e =>
    rw [foldl_absorb step habs s l (by rw [he]; rfl), he] at h
    cases h

/-- Statuses handed to the adapter are always from the normalized set. -/
def normalizedTokens : List String := ["backlog", "ready", "in_progress", "in_review", "done"]

/-- Every status argument of the call is a normalized token. -/
def callStatusNormalized (c : AdapterCall) : Prop :=
  match c with
  | .create _ st _ _ _ => st ∈ normalizedTokens
  | .update_status _ st => st ∈ normalizedTokens
  | .update_description _ _ => True
  | .archive _ => True

theorem normalizeStatus_mem (s : String) : normalizeStatus s ∈ normalizedTokens := by
  rw [normalizeStatus, NORMALIZED_STATUSES]
  simp only [alookup]
  split_ifs <;> simp [normalizedTokens]

/-- The trace entry recorded by `doCall`, whatever the response. -/
theorem doCall_calls (a : AdapterOracle) (s : SyncSt) (c : AdapterCall) :
    (doCall a s c).1.calls = s.calls ++ [c] := by
  rw [doCall]; cases a s.calls.length c <;> rfl

/-- The calls appended by `archiveOrphan` are archives. -/
theorem archiveOrphan_calls (a : AdapterOracle) (d : Bool) (s : SyncSt) (j : String) :
    ∃ ex, (archiveOrphan a d s j).calls = s.calls ++ ex ∧
      ∀ c ∈ ex, ∃ tid, c = AdapterCall.archive tid := by
  simp only [archiveOrphan]
  split
  · exact ⟨[], by simp⟩
  · split
    · exact ⟨[], by simp⟩
    · rename_i ti _
      split
      · exact ⟨[], by simp⟩
      · split
        · exact ⟨[AdapterCall.archive ti.tracker_id], doCall_calls a s _, by simp⟩
        · exact ⟨[AdapterCall.archive ti.tracker_id], doCall_calls a s _, by simp⟩

/-- Helper to package a single-call extension. -/
theorem calls_ex_single {s : SyncSt} {c : AdapterCall} {r : SyncSt}
    (hr : r.calls = s.calls ++ [c])
    (hc : (∀ tid, c ≠ AdapterCall.archive tid) ∧ callStatusNormalized c) :
    ∃ ex, r.calls = s.calls ++ ex ∧
      ∀ x ∈ ex, (∀ tid, x ≠ AdapterCall.archive tid) ∧ callStatusNormalized x := by
  refine ⟨[c], hr, ?_⟩
  intro x hx
  rw [List.mem_singleton] at hx
  subst hx
  exact hc

/-- The calls appended by `processIssue` are never archives and carry
only normalized status arguments. -/
theorem processIssue_calls (a : AdapterOracle) (d : Bool) (g : String → String)
    (s : SyncSt) (i : Issue) :
    ∃ ex, (processIssue a d g s i).calls = s.calls ++ ex ∧
      ∀ c ∈ ex, (∀ tid, c ≠ AdapterCall.archive tid) ∧ callStatusNormalized c := by
  simp only [processIssue]
  split
  · exact ⟨[], by simp⟩
  · split
    · -- untracked: create
      split
      · exact ⟨[], by simp⟩
      · split
        · exact calls_ex_single (doCall_calls a s _)
            ⟨fun tid h => AdapterCall.noConfusion h, normalizeStatus_mem i.status⟩
        · exact calls_ex_single (doCall_calls a s _)
            ⟨fun tid h => AdapterCall.noConfusion h, normalizeStatus_mem i.status⟩
    · -- tracked
      rename_i ti _
      split
      · -- status changed
        split
        · exact ⟨[], by simp⟩
        · split
          · exact calls_ex_single (doCall_calls a s _)
              ⟨fun tid h => AdapterCall.noConfusion h, normalizeStatus_mem i.status⟩
          · exact calls_ex_single (doCall_calls a s _)
              ⟨fun tid h => AdapterCall.noConfusion h, normalizeStatus_mem i.status⟩
      · split
        · -- description changed
          split
          · exact ⟨[], by simp⟩
          · split
            · exact calls_ex_single (doCall_calls a s _)
                ⟨fun tid h => AdapterCall.noConfusion h, trivial⟩
            · exact calls_ex_single (doCall_calls a s _)
                ⟨fun tid h => AdapterCall.noConfusion h, trivial⟩
        · -- unchanged
          refine ⟨[], ?_, by simp⟩
          rw [List.append_nil]
          split <;> rfl

/-! ## Exception propagation (claim C4) -/

/-- The invariant that any pending exception was raised by the last
recorded call — the property by which a failing call aborts everything
after it. -/
def ErrInv (a : AdapterOracle) (s : SyncSt) : Prop :=
  ∀ e, s.error = some e →
    ∃ cs c, s.calls = cs ++ [c] ∧ a cs.length c = .error e

theorem errInv_congr {a : AdapterOracle} (s0 : SyncSt) {r : SyncSt} (hc : r.calls = s0.calls)
    (he : r.error = s0.error) (h : ErrInv a s0) : ErrInv a r := by
  intro e hee
  rw [he] at hee
  rcases h e hee with ⟨cs, c, h1, h2⟩
  exact ⟨cs, c, hc ▸ h1, h2⟩

theorem doCall_errInv (a : AdapterOracle) (s : SyncSt) (c : AdapterCall)
    (h : s.error = none) : ErrInv a (doCall a s c).1 := by
  rw [doCall]
  cases ha : a s.calls.length c with
  | ok v =>
    intro e hee
    have h2 : s.error = some e := hee
    rw [h] at h2
    cases h2
  | error e2 =>
    intro e hee
    have h2 : some e2 = some e := hee
    cases Option.some.inj h2
    exact ⟨s.calls, c, rfl, ha⟩

theorem archiveOrphan_errInv (a : AdapterOracle) (d : Bool) (s : SyncSt) (j : String)
    (h : ErrInv a s) : ErrInv a (archiveOrphan a d s j) := by
  cases he : s.error with
  | some e => rw [archiveOrphan_absorb a d s j (by rw [he]; rfl)]; exact h
  | none =>
    simp only [archiveOrphan]
    split
    · exact h
    · split
      · exact h
      · split
        · exact errInv_congr s rfl rfl h
        · split
          · exact doCall_errInv a s _ he
          · exact errInv_congr (doCall a s _).1 rfl rfl (doCall_errInv a s _ he)

theorem processIssue_errInv (a : AdapterOracle) (d : Bool) (g : String → String)
    (s : SyncSt) (i : Issue) (h : ErrInv a s) : ErrInv a (processIssue a d g s i) := by
  cases he : s.error with
  | some e => rw [processIssue_absorb a d g s i (by rw [he]; rfl)]; exact h
  | none =>
    simp only [processIssue]
    split
    · exact h
    · split
      · split
        · exact errInv_congr s rfl rfl h
        · split
          · exact doCall_errInv a s _ he
          · exact errInv_congr (doCall a s _).1 rfl rfl (doCall_errInv a s _ he)
      · split
        · split
          · exact errInv_congr s rfl rfl h
          · split
            · exact doCall_errInv a s _ he
            · exact errInv_congr (doCall a s _).1 rfl rfl (doCall_errInv a s _ he)
        · split
          · split
            · exact errInv_congr s rfl rfl h
            · split
              · exact doCall_errInv a s _ he
              · exact errInv_congr (doCall a s _).1 rfl rfl (doCall_errInv a s _ he)
          · refine errInv_congr s ?_ ?_ h <;> split <;> rfl

theorem foldl_pres {β : Type} (step : SyncSt → β → SyncSt) (P : SyncSt → Prop)
    (hstep : ∀ s x, P s → P (step s x)) :
    ∀ (l : List β) (s : SyncSt), P s → P (l.foldl step s) := by
  intro l
  induction l with
  | nil => intro s h; exact h
  | cons x t ih => intro s h; rw [List.foldl_cons]; exact ih _ (hstep s x h)

theorem syncCore_errInv (a : AdapterOracle) (d : Bool) (g : String → String)
    (issues : List Issue) (state0 : StateMap) :
    ErrInv a (syncCore a d g issues state0) := by
  rw [syncCore]
  refine foldl_pres _ _ (fun s i h => processIssue_errInv a d g s i h) _ _ ?_
  refine foldl_pres _ _ (fun s j h => archiveOrphan_errInv a d s j h) _ _ ?_
  intro e hee
  cases hee

/-- The pass state returned by a whole run is the core pass result. -/
theorem runSync_snd (adapter : AdapterOracle) (dry_run : Bool) (digest : String → String)
    (issues_file : String) (issues : List Issue) (all_state : List (String × StateMap)) :
    (runSyncOnFile adapter dry_run digest issues_file issues all_state).2 =
      syncCore adapter dry_run digest issues (load_sync_state issues_file all_state) := by
  rw [runSyncOnFile]
  split <;> rfl

/-- Claim C4: when some adapter call raises, the whole pass aborts right
there — the failing call is the last call attempted — and the persisted
state store file is left exactly as it was (the save step is never
reached). -/
theorem C4_abort_no_persist (adapter : AdapterOracle) (dry_run : Bool)
    (digest : String → String) (issues_file : String) (issues : List Issue)
    (all_state : List (String × StateMap)) (e : String)
    (herr : (runSyncOnFile adapter dry_run digest issues_file issues all_state).2.error =
      some e) :
    (runSyncOnFile adapter dry_run digest issues_file issues all_state).1 = all_state ∧
    ∃ cs c,
      (runSyncOnFile adapter dry_run digest issues_file issues all_state).2.calls =
          cs ++ [c] ∧
        adapter cs.length c = .error e := by
  rw [runSync_snd] at herr
  constructor
  · rw [runSyncOnFile]
    split
    · rename_i hcond
      rw [herr] at hcond
      cases hcond.1
    · rfl
  · rw [runSync_snd]
    exact syncCore_errInv adapter dry_run digest issues
      (load_sync_state issues_file all_state) e herr

/-- Shared concrete inputs for the witnesses. -/
def demoIssue : Issue := ⟨"ISSUE-1", "Demo", "Ready", [], "M", "", "", "Demo prose."⟩

def failAdapter : AdapterOracle := fun _ _ => .error "boom"

def okAdapter : AdapterOracle := fun n _ => .ok ("T" ++ toString (n + 1))

def idDigest : String → String := fun s => s

/-- Claim C4 witness: a first-call failure on a fresh one-issue document
leaves the (empty) store file untouched and stops after that call. -/
theorem C4_witness :
    (runSyncOnFile failAdapter false idDigest "doc.md" [demoIssue] []).1 = [] ∧
    ∃ cs c,
      (runSyncOnFile failAdapter false idDigest "doc.md" [demoIssue] []).2.calls =
          cs ++ [c] ∧
        failAdapter cs.length c = .error "boom" :=
  C4_abort_no_persist failAdapter false idDigest "doc.md" [demoIssue] [] "boom" (by rfl)

/-! ## Dry-run mode (claim C8) -/

theorem archiveOrphan_dry (a : AdapterOracle) (s : SyncSt) (j : String)
    (herr : s.error = none) (hmem : j ∈ akeys s.state) :
    archiveOrphan a true s j = { s with archived := s.archived + 1 } := by
  have hs := alookup_isSome_of_mem_akeys hmem
  rw [archiveOrphan, if_neg (by rw [herr]; simp)]
  cases hlk : alookup s.state j with
  | none => rw [hlk] at hs; cases hs
  | some ti => rfl

theorem orphanFold_dry (a : AdapterOracle) (l : List String) (s : SyncSt)
    (herr : s.error = none) (hl : ∀ j ∈ l, j ∈ akeys s.state) :
    l.foldl (archiveOrphan a true) s = { s with archived := s.archived + l.length } := by
  induction l generalizing s with
  | nil =>
    obtain ⟨st, cr, up, un, ar, ca, er⟩ := s
    simp
  | cons j t ih =>
    rw [List.foldl_cons, archiveOrphan_dry a s j herr (hl j (List.mem_cons_self j t))]
    rw [ih { s with archived := s.archived + 1 } herr (fun j2 hj2 => hl j2 (List.mem_cons_of_mem j hj2))]
    obtain ⟨st, cr, up, un, ar, ca, er⟩ := s
    simp only [List.length_cons]
    congr 1
    omega

theorem processIssue_dry (a : AdapterOracle) (g : String → String) (s : SyncSt) (i : Issue)
    (herr : s.error = none) :
    (processIssue a true g s i).calls = s.calls ∧
    (processIssue a true g s i).error = none ∧
    (processIssue a true g s i).archived = s.archived ∧
    (processIssue a true g s i).created + (processIssue a true g s i).updated +
        (processIssue a true g s i).unchanged =
      s.created + s.updated + s.unchanged + 1 := by
  simp only [processIssue]
  rw [if_neg (by rw [herr]; simp)]
  split
  · exact ⟨rfl, herr, rfl, by
      show s.created + 1 + s.updated + s.unchanged =
        s.created + s.updated + s.unchanged + 1
      omega⟩
  · split
    · exact ⟨rfl, herr, rfl, by
        show s.created + (s.updated + 1) + s.unchanged =
          s.created + s.updated + s.unchanged + 1
        omega⟩
    · split
      · exact ⟨rfl, herr, rfl, by
          show s.created + (s.updated + 1) + s.unchanged =
            s.created + s.updated + s.unchanged + 1
          omega⟩
      · refine ⟨?_, ?_, ?_, ?_⟩
        · split <;> rfl
        · split <;> exact herr
        · split <;> rfl
        · split
          · show s.created + s.updated + (s.unchanged + 1) =
              s.created + s.updated + s.unchanged + 1
            omega
          · show s.created + s.updated + (s.unchanged + 1) =
              s.created + s.updated + s.unchanged + 1
            omega

theorem mainFold_dry (a : AdapterOracle) (g : String → String) (l : List Issue)
    (s : SyncSt) (herr : s.error = none) :
    (l.foldl (processIssue a true g) s).calls = s.calls ∧
    (l.foldl (processIssue a true g) s).error = none ∧
    (l.foldl (processIssue a true g) s).archived = s.archived ∧
    (l.foldl (processIssue a true g) s).created +
        (l.foldl (processIssue a true g) s).updated +
        (l.foldl (processIssue a true g) s).unchanged =
      s.created + s.updated + s.unchanged + l.length := by
  induction l generalizing s with
  | nil => exact ⟨rfl, herr, rfl, by simp⟩
  | cons i t ih =>
    rw [List.foldl_cons]
    obtain ⟨h1, h2, h3, h4⟩ := processIssue_dry a g s i herr
    obtain ⟨g1, g2, g3, g4⟩ := ih (processIssue a true g s i) h2
    refine ⟨g1.trans h1, g2, g3.trans h3, ?_⟩
    rw [g4, h4]
    simp only [List.length_cons]
    omega

/-- A dry-run core pass: no calls, no error, every issue classified in
exactly one bucket, every orphan counted. -/
theorem syncCore_dry (adapter : AdapterOracle) (digest : String → String)
    (issues : List Issue) (state0 : StateMap) :
    (syncCore adapter true digest issues state0).calls = [] ∧
    (syncCore adapter true digest issues state0).error = none ∧
    (syncCore adapter true digest issues state0).created +
        (syncCore adapter true digest issues state0).updated +
        (syncCore adapter true digest issues state0).unchanged = issues.length ∧
    (syncCore adapter true digest issues state0).archived =
      (orphanedOf issues state0).length := by
  have horph := orphanFold_dry adapter (orphanedOf issues state0) { state := state0 } rfl
    (fun j hj => (List.mem_filter.mp hj).1)
  obtain ⟨m1, m2, m3, m4⟩ := mainFold_dry adapter digest issues
    ((orphanedOf issues state0).foldl (archiveOrphan adapter true) { state := state0 })
    (by rw [horph])
  simp only [syncCore]
  refine ⟨?_, m2, ?_, ?_⟩
  · rw [m1, horph]
  · rw [m4, horph]; simp
  · rw [m3, horph]; simp

/-- Claim C8: a dry run performs every comparison (each of the `issues`
is classified as exactly one of created/updated/unchanged and each
orphaned entry is counted as archived) but makes no adapter call,
raises no error, and leaves the persisted store file unchanged. -/
theorem C8_dry_run_frame (adapter : AdapterOracle) (digest : String → String)
    (issues_file : String) (issues : List Issue)
    (all_state : List (String × StateMap)) :
    (runSyncOnFile adapter true digest issues_file issues all_state).1 = all_state ∧
    (runSyncOnFile adapter true digest issues_file issues all_state).2.calls = [] ∧
    (runSyncOnFile adapter true digest issues_file issues all_state).2.error = none ∧
    (runSyncOnFile adapter true digest issues_file issues all_state).2.created +
        (runSyncOnFile adapter true digest issues_file issues all_state).2.updated +
        (runSyncOnFile adapter true digest issues_file issues all_state).2.unchanged =
      issues.length ∧
    (runSyncOnFile adapter true digest issues_file issues all_state).2.archived =
      (orphanedOf issues (load_sync_state issues_file all_state)).length := by
  have hfst : (runSyncOnFile adapter true digest issues_file issues all_state).1 =
      all_state := by
    rw [runSyncOnFile]
    split
    · rename_i hcond; cases hcond.2
    · rfl
  have hsnd := runSync_snd adapter true digest issues_file issues all_state
  obtain ⟨c1, c2, c3, c4⟩ := syncCore_dry adapter digest issues
    (load_sync_state issues_file all_state)
  rw [hsnd]
  exact ⟨hfst, c1, c2, c3, c4⟩

/-! ## Status normalization (claim C10) -/

theorem doCall_snd (a : AdapterOracle) (s : SyncSt) (c : AdapterCall) :
    (doCall a s c).2 = a s.calls.length c := by
  rw [doCall]; cases a s.calls.length c <;> rfl

theorem doCall_ok_fst (a : AdapterOracle) (s : SyncSt) (c : AdapterCall) (v : String)
    (h : a s.calls.length c = .ok v) :
    (doCall a s c).1 = { s with calls := s.calls ++ [c] } := by
  rw [doCall, h]

/-- An unmapped document status normalizes to `backlog`. -/
theorem normalizeStatus_default (s : String)
    (hs : s ∉ ["Backlog", "Ready", "In Progress", "In Review", "Done"]) :
    normalizeStatus s = "backlog" := by
  simp only [List.mem_cons, List.not_mem_nil, or_false, not_or] at hs
  obtain ⟨h1, h2, h3, h4, h5⟩ := hs
  rw [normalizeStatus, NORMALIZED_STATUSES]
  simp only [alookup]
  rw [if_neg (fun hh => h1 hh.symm), if_neg (fun hh => h2 hh.symm),
    if_neg (fun hh => h3 hh.symm), if_neg (fun hh => h4 hh.symm),
    if_neg (fun hh => h5 hh.symm)]

/-- Every adapter call a pass ever attempts carries only normalized
status arguments. -/
theorem syncCore_calls_normalized (a : AdapterOracle) (d : Bool) (g : String → String)
    (issues : List Issue) (state0 : StateMap) :
    ∀ c ∈ (syncCore a d g issues state0).calls, callStatusNormalized c := by
  rw [syncCore]
  refine foldl_pres _ (fun s => ∀ c ∈ s.calls, callStatusNormalized c) ?_ _ _
    (foldl_pres _ (fun s => ∀ c ∈ s.calls, callStatusNormalized c) ?_ _ _ ?_)
  · intro s i hs c hc
    obtain ⟨ex, hcalls, hex⟩ := processIssue_calls a d g s i
    rw [hcalls] at hc
    rcases List.mem_append.mp hc with h | h
    · exact hs c h
    · exact (hex c h).2
  · intro s j hs c hc
    obtain ⟨ex, hcalls, hex⟩ := archiveOrphan_calls a d s j
    rw [hcalls] at hc
    rcases List.mem_append.mp hc with h | h
    · exact hs c h
    · obtain ⟨tid, rfl⟩ := hex c h
      trivial
  · intro c hc
    cases hc

/-- Claim C10: a document status outside the five known statuses is
normalized to `backlog`, and every status the engine hands to the
adapter (in `create` or `update_status`, in any mode, even in a run that
later fails) is one of the five normalized tokens — never the raw
document string. -/
theorem C10_status_normalization (s : String) (adapter : AdapterOracle) (dry_run : Bool)
    (digest : String → String) (issues : List Issue) (state0 : StateMap) (c : AdapterCall)
    (hs : s ∉ ["Backlog", "Ready", "In Progress", "In Review", "Done"])
    (hc : c ∈ (syncCore adapter dry_run digest issues state0).calls) :
    normalizeStatus s = "backlog" ∧ callStatusNormalized c :=
  ⟨normalizeStatus_default s hs,
   syncCore_calls_normalized adapter dry_run digest issues state0 c hc⟩

/-- Claim C10 witness: the unknown status `Weird` maps to `backlog`, and
the one call of a concrete first sync is status-normalized. -/
theorem C10_witness :
    normalizeStatus "Weird" = "backlog" ∧
      callStatusNormalized
        (AdapterCall.create "ISSUE-1: Demo" "ready" "Demo prose." "M" "") :=
  C10_status_normalization "Weird" okAdapter false idDigest [demoIssue] []
    (AdapterCall.create "ISSUE-1: Demo" "ready" "Demo prose." "M" "")
    (by decide) (by decide)

/-! ## Change-detection precedence (claims C2 and C1) -/

/-- Claim C2 (amended): for a tracked issue whose normalized status and
description fingerprint both differ from the stored entry, exactly one
adapter call fires — `update_status` — and no description push happens;
the stored fingerprint is backfilled to the current one only when none
was recorded (`Option.getD`): an already-recorded differing fingerprint
is left at its old value. -/
theorem C2_status_precedence (adapter : AdapterOracle) (digest : String → String)
    (s : SyncSt) (issue : Issue) (ti : StateEntry) (v : String)
    (herr : s.error = none)
    (hlk : alookup s.state issue.id = some ti)
    (hst : ti.last_status ≠ normalizeStatus issue.status)
    (hdesc : ti.description_hash ≠
      some (pyHash digest (extract_human_summary issue.raw_block)))
    (hok : adapter s.calls.length
        (AdapterCall.update_status ti.tracker_id (normalizeStatus issue.status)) = .ok v) :
    (processIssue adapter false digest s issue).calls =
        s.calls ++ [AdapterCall.update_status ti.tracker_id (normalizeStatus issue.status)] ∧
    alookup (processIssue adapter false digest s issue).state issue.id =
        some ⟨ti.tracker_id, normalizeStatus issue.status,
          some (ti.description_hash.getD
            (pyHash digest (extract_human_summary issue.raw_block)))⟩ ∧
    (processIssue adapter false digest s issue).updated = s.updated + 1 ∧
    (processIssue adapter false digest s issue).error = none := by
  simp only [processIssue]
  split
  · rename_i h; rw [herr] at h; simp at h
  · split
    · rename_i heq; rw [hlk] at heq; cases heq
    · rename_i ti2 heq
      rw [hlk] at heq
      cases Option.some.inj heq
      split
      · split
        · rename_i h; cases h
        · split
          · rename_i e heq2
            rw [doCall_snd, hok] at heq2
            cases heq2
          · rename_i v2 heq2
            rw [doCall_snd, hok] at heq2
            cases Except.ok.inj heq2
            rw [doCall_ok_fst adapter s _ v hok]
            exact ⟨rfl, by rw [alookup_aset, if_pos rfl], rfl, herr⟩
      · rename_i h
        exact absurd hst h

/-- Concrete inputs for the change-precedence scenario: a tracked issue
whose status changed (`ready` → `done`) while its stored description
fingerprint (`"old"`) also differs from the current one. -/
def chgIssue : Issue := ⟨"ISSUE-1", "Demo", "Done", [], "M", "", "", "Build the widget."⟩

def chgEntry : StateEntry := ⟨"t1", "ready", some "old"⟩

/-- Claim C2 witness: the amended statement at the concrete scenario. -/
theorem C2_witness :
    (processIssue okAdapter false idDigest { state := [("ISSUE-1", chgEntry)] }
        chgIssue).calls =
      ([] : List AdapterCall) ++ [AdapterCall.update_status "t1" "done"] ∧
    alookup (processIssue okAdapter false idDigest { state := [("ISSUE-1", chgEntry)] }
        chgIssue).state "ISSUE-1" =
      some ⟨"t1", "done", some ((some "old").getD
        (pyHash idDigest (extract_human_summary chgIssue.raw_block)))⟩ ∧
    (processIssue okAdapter false idDigest { state := [("ISSUE-1", chgEntry)] }
        chgIssue).updated = 0 + 1 ∧
    (processIssue okAdapter false idDigest { state := [("ISSUE-1", chgEntry)] }
        chgIssue).error = none :=
  C2_status_precedence okAdapter idDigest { state := [("ISSUE-1", chgEntry)] } chgIssue
    chgEntry "T1" rfl (by rfl) (by decide) (by decide) (by rfl)

/-- Claim C2 counterexample: in that very scenario the claim's final
part fails — after the pass the stored fingerprint is still `"old"`,
not the current summary's fingerprint, so it was *not* backfilled to
the current value. -/
theorem C2_cex :
    (syncCore okAdapter false idDigest [chgIssue] [("ISSUE-1", chgEntry)]).calls =
        [AdapterCall.update_status "t1" "done"] ∧
      alookup (syncCore okAdapter false idDigest [chgIssue]
          [("ISSUE-1", chgEntry)]).state "ISSUE-1" = some ⟨"t1", "done", some "old"⟩ ∧
      pyHash idDigest (extract_human_summary chgIssue.raw_block) ≠ "old" :=
  ⟨by rfl, by rfl, by decide⟩

/-- Claim C1 counterexample: the same scenario breaks second-run
quiescence.  Run 1 fires only the status update and leaves the stale
stored fingerprint `"old"`; run 2, although nothing changed in between,
then fires an `update_description` and reports one update. -/
theorem C1_cex :
    (syncCore okAdapter false idDigest [chgIssue] [("ISSUE-1", chgEntry)]).error = none ∧
      (syncCore okAdapter false idDigest [chgIssue]
          (syncCore okAdapter false idDigest [chgIssue]
            [("ISSUE-1", chgEntry)]).state).updated = 1 ∧
      (syncCore okAdapter false idDigest [chgIssue]
          (syncCore okAdapter false idDigest [chgIssue]
            [("ISSUE-1", chgEntry)]).state).calls =
        [AdapterCall.update_description "t1" "Build the widget."] :=
  ⟨by rfl, by rfl, by rfl⟩

/-! ## Orphan-phase characterization (claims C5 and C1) -/

theorem doCall_state (a : AdapterOracle) (s : SyncSt) (c : AdapterCall) :
    (doCall a s c).1.state = s.state := by
  rw [doCall]; cases a s.calls.length c <;> rfl

theorem doCall_err_fst (a : AdapterOracle) (s : SyncSt) (c : AdapterCall) (e : String)
    (h : a s.calls.length c = .error e) :
    (doCall a s c).1 = { s with calls := s.calls ++ [c], error := some e } := by
  rw [doCall, h]

/-- Full case analysis of one non-dry orphan-archival step. -/
theorem archiveOrphan_shape (a : AdapterOracle) (s : SyncSt) (j : String)
    (herr : s.error = none) :
    (alookup s.state j = none ∧ archiveOrphan a false s j = s) ∨
    (∃ ti v, alookup s.state j = some ti ∧
      a s.calls.length (AdapterCall.archive ti.tracker_id) = .ok v ∧
      archiveOrphan a false s j = { s with
        state := aerase s.state j,
        archived := s.archived + 1,
        calls := s.calls ++ [AdapterCall.archive ti.tracker_id] }) ∨
    (∃ ti e, alookup s.state j = some ti ∧
      a s.calls.length (AdapterCall.archive ti.tracker_id) = .error e ∧
      archiveOrphan a false s j = { s with
        calls := s.calls ++ [AdapterCall.archive ti.tracker_id],
        error := some e }) := by
  have he : ¬ (s.error.isSome = true) := by rw [herr]; simp
  cases hlk : alookup s.state j with
  | none =>
    refine Or.inl ⟨rfl, ?_⟩
    simp only [archiveOrphan, if_neg he, hlk]
  | some ti =>
    cases ha : a s.calls.length (AdapterCall.archive ti.tracker_id) with
    | ok v =>
      refine Or.inr (Or.inl ⟨ti, v, rfl, ha, ?_⟩)
      simp only [archiveOrphan, if_neg he, hlk, doCall_snd, ha,
        doCall_ok_fst a s _ v ha]
      rfl
    | error e =>
      refine Or.inr (Or.inr ⟨ti, e, rfl, ha, ?_⟩)
      simp only [archiveOrphan, if_neg he, hlk, doCall_snd, ha,
        doCall_err_fst a s _ e ha]
      rfl

/-- An orphan step never touches other keys' bindings (any mode). -/
theorem archiveOrphan_lookup_other (a : AdapterOracle) (d : Bool) (s : SyncSt)
    (j k : String) (hk : k ≠ j) :
    alookup (archiveOrphan a d s j).state k = alookup s.state k := by
  have hne : ¬ (j = k) := fun hh => hk hh.symm
  simp only [archiveOrphan]
  repeat' split
  all_goals simp [doCall_state, alookup_aerase, hne]

/-- An orphan step never creates a binding. -/
theorem archiveOrphan_lookup_none_mono (a : AdapterOracle) (d : Bool) (s : SyncSt)
    (j k : String) (h : alookup s.state k = none) :
    alookup (archiveOrphan a d s j).state k = none := by
  by_cases hk : k = j
  · subst hk
    simp only [archiveOrphan]
    repeat' split
    all_goals simp [doCall_state, alookup_aerase, h]
  · rw [archiveOrphan_lookup_other a d s j k hk]; exact h

theorem orphanFold_lookup_other (a : AdapterOracle) (d : Bool) (l : List String)
    (s : SyncSt) (k : String) (hk : ∀ j ∈ l, k ≠ j) :
    alookup (l.foldl (archiveOrphan a d) s).state k = alookup s.state k := by
  induction l generalizing s with
  | nil => rfl
  | cons j t ih =>
    rw [List.foldl_cons, ih _ (fun j2 hj2 => hk j2 (List.mem_cons_of_mem j hj2)),
      archiveOrphan_lookup_other a d s j k (hk j (List.mem_cons_self j t))]

theorem orphanFold_lookup_none_mono (a : AdapterOracle) (d : Bool) (l : List String)
    (s : SyncSt) (k : String) (h : alookup s.state k = none) :
    alookup (l.foldl (archiveOrphan a d) s).state k = none := by
  induction l generalizing s with
  | nil => exact h
  | cons j t ih =>
    rw [List.foldl_cons]
    exact ih _ (archiveOrphan_lookup_none_mono a d s j k h)

/-- After a successful (non-dry) orphan pass, every processed orphan's
binding is gone. -/
theorem orphanFold_lookup_none (a : AdapterOracle) (l : List String) (s : SyncSt)
    (hok : (l.foldl (archiveOrphan a false) s).error = none) :
    ∀ j ∈ l, alookup (l.foldl (archiveOrphan a false) s).state j = none := by
  induction l generalizing s with
  | nil => intro j hj; cases hj
  | cons j0 t ih =>
    rw [List.foldl_cons] at hok ⊢
    have herr : s.error = none := by
      refine foldl_error_none_backward _ (fun s2 x h2 => archiveOrphan_absorb a false s2 x h2) s (j0 :: t) ?_
      rw [List.foldl_cons]; exact hok
    intro j hj
    rcases List.mem_cons.mp hj with rfl | hjt
    · -- the head orphan: its binding is erased (or was absent) by its own step
      have hstep : alookup (archiveOrphan a false s j).state j = none := by
        rcases archiveOrphan_shape a s j herr with ⟨h1, h2⟩ | ⟨ti, v, h1, h2, h3⟩ | ⟨ti, e, h1, h2, h3⟩
        · rw [h2]; exact h1
        · rw [h3]
          show alookup (aerase s.state j) j = none
          rw [alookup_aerase, if_pos rfl]
        · -- the archive call failed: then the whole fold still carries the
          -- error, contradicting hok
          exfalso
          have habs := foldl_absorb (archiveOrphan a false)
            (fun s2 x h2 => archiveOrphan_absorb a false s2 x h2)
            (archiveOrphan a false s j) t (by rw [h3]; rfl)
          rw [habs, h3] at hok
          cases hok
      exact orphanFold_lookup_none_mono a false t _ j hstep
    · exact ih _ hok j hjt

theorem filterMap_ext_mem {α β : Type} (l : List α) (f g : α → Option β)
    (h : ∀ x ∈ l, f x = g x) : l.filterMap f = l.filterMap g := by
  induction l with
  | nil => rfl
  | cons x t ih =>
    rw [List.filterMap_cons, List.filterMap_cons, h x (List.mem_cons_self x t),
      ih (fun y hy => h y (List.mem_cons_of_mem x hy))]

/-- The successful (non-dry) orphan pass records exactly one archive call
per orphan that has a binding, in list order, against the initial state's
entries. -/
theorem orphanFold_calls (a : AdapterOracle) (l : List String) (s : SyncSt)
    (hnd : l.Nodup)
    (hok : (l.foldl (archiveOrphan a false) s).error = none) :
    (l.foldl (archiveOrphan a false) s).calls =
      s.calls ++ l.filterMap (fun j => (alookup s.state j).map
        (fun ent => AdapterCall.archive ent.tracker_id)) := by
  induction l generalizing s with
  | nil => simp
  | cons j0 t ih =>
    rw [List.foldl_cons] at hok ⊢
    have herr : s.error = none := by
      refine foldl_error_none_backward _ (fun s2 x h2 => archiveOrphan_absorb a false s2 x h2) s (j0 :: t) ?_
      rw [List.foldl_cons]; exact hok
    have hnd' := (List.nodup_cons.mp hnd).2
    have hj0 := (List.nodup_cons.mp hnd).1
    rcases archiveOrphan_shape a s j0 herr with ⟨h1, h2⟩ | ⟨ti, v, h1, h2, h3⟩ | ⟨ti, e, h1, h2, h3⟩
    · rw [h2, ih s hnd' (h2 ▸ hok), List.filterMap_cons, h1]
      rfl
    · rw [h3] at hok ⊢
      rw [ih _ hnd' hok]
      have hpres : ∀ j ∈ t, alookup (aerase s.state j0) j = alookup s.state j := by
        intro j hj
        rw [alookup_aerase, if_neg (fun hh => hj0 (by rw [hh]; exact hj))]
      rw [show ({ s with
          state := aerase s.state j0,
          archived := s.archived + 1,
          calls := s.calls ++ [AdapterCall.archive ti.tracker_id] } : SyncSt).calls =
          s.calls ++ [AdapterCall.archive ti.tracker_id] from rfl]
      rw [filterMap_ext_mem t _
        (fun j => (alookup s.state j).map (fun ent => AdapterCall.archive ent.tracker_id))
        (fun j hj => by rw [show ({ s with
          state := aerase s.state j0,
          archived := s.archived + 1,
          calls := s.calls ++ [AdapterCall.archive ti.tracker_id] } : SyncSt).state =
          aerase s.state j0 from rfl, hpres j hj])]
      rw [List.filterMap_cons, h1]
      simp
    · exfalso
      have habs := foldl_absorb (archiveOrphan a false)
        (fun s2 x h2 => archiveOrphan_absorb a false s2 x h2)
        (archiveOrphan a false s j0) t (by rw [h3]; rfl)
      rw [habs, h3] at hok
      cases hok

/-! ## Main-loop characterization (claims C1 and C5) -/

/-- Full case analysis of one non-dry create/update step. -/
theorem processIssue_shape (a : AdapterOracle) (g : String → String) (s : SyncSt)
    (i : Issue) (herr : s.error = none) :
    (∃ tid,
      alookup s.state i.id = none ∧
      a s.calls.length (AdapterCall.create (i.id ++ ": " ++ i.title)
        (normalizeStatus i.status) (extract_human_summary i.raw_block)
        i.complexity i.layers) = .ok tid ∧
      processIssue a false g s i = { s with
        state := aset s.state i.id
          ⟨tid, normalizeStatus i.status,
            some (pyHash g (extract_human_summary i.raw_block))⟩,
        created := s.created + 1,
        calls := s.calls ++ [AdapterCall.create (i.id ++ ": " ++ i.title)
          (normalizeStatus i.status) (extract_human_summary i.raw_block)
          i.complexity i.layers] }) ∨
    (∃ e,
      alookup s.state i.id = none ∧
      processIssue a false g s i = { s with
        calls := s.calls ++ [AdapterCall.create (i.id ++ ": " ++ i.title)
          (normalizeStatus i.status) (extract_human_summary i.raw_block)
          i.complexity i.layers],
        error := some e }) ∨
    (∃ ti v,
      alookup s.state i.id = some ti ∧ ti.last_status ≠ normalizeStatus i.status ∧
      a s.calls.length (AdapterCall.update_status ti.tracker_id
        (normalizeStatus i.status)) = .ok v ∧
      processIssue a false g s i = { s with
        state := aset s.state i.id
          ⟨ti.tracker_id, normalizeStatus i.status,
            some (ti.description_hash.getD
              (pyHash g (extract_human_summary i.raw_block)))⟩,
        updated := s.updated + 1,
        calls := s.calls ++ [AdapterCall.update_status ti.tracker_id
          (normalizeStatus i.status)] }) ∨
    (∃ ti e,
      alookup s.state i.id = some ti ∧ ti.last_status ≠ normalizeStatus i.status ∧
      processIssue a false g s i = { s with
        calls := s.calls ++ [AdapterCall.update_status ti.tracker_id
          (normalizeStatus i.status)],
        error := some e }) ∨
    (∃ ti v,
      alookup s.state i.id = some ti ∧ ti.last_status = normalizeStatus i.status ∧
      ti.description_hash ≠ some (pyHash g (extract_human_summary i.raw_block)) ∧
      extract_human_summary i.raw_block ≠ "" ∧ ti.description_hash.isSome = true ∧
      a s.calls.length (AdapterCall.update_description ti.tracker_id
        (extract_human_summary i.raw_block)) = .ok v ∧
      processIssue a false g s i = { s with
        state := aset s.state i.id
          ⟨ti.tracker_id, ti.last_status,
            some (pyHash g (extract_human_summary i.raw_block))⟩,
        updated := s.updated + 1,
        calls := s.calls ++ [AdapterCall.update_description ti.tracker_id
          (extract_human_summary i.raw_block)] }) ∨
    (∃ ti e,
      alookup s.state i.id = some ti ∧ ti.last_status = normalizeStatus i.status ∧
      ti.description_hash ≠ some (pyHash g (extract_human_summary i.raw_block)) ∧
      extract_human_summary i.raw_block ≠ "" ∧ ti.description_hash.isSome = true ∧
      processIssue a false g s i = { s with
        calls := s.calls ++ [AdapterCall.update_description ti.tracker_id
          (extract_human_summary i.raw_block)],
        error := some e }) ∨
    (∃ ti,
      alookup s.state i.id = some ti ∧ ti.last_status = normalizeStatus i.status ∧
      ti.description_hash = none ∧
      processIssue a false g s i = { s with
        state := aset s.state i.id
          ⟨ti.tracker_id, ti.last_status,
            some (pyHash g (extract_human_summary i.raw_block))⟩,
        unchanged := s.unchanged + 1 }) ∨
    (∃ ti hd,
      alookup s.state i.id = some ti ∧ ti.last_status = normalizeStatus i.status ∧
      ti.description_hash = some hd ∧
      (hd = pyHash g (extract_human_summary i.raw_block) ∨
        extract_human_summary i.raw_block = "") ∧
      processIssue a false g s i = { s with unchanged := s.unchanged + 1 }) := by
  have he : ¬ (s.error.isSome = true) := by rw [herr]; simp
  cases hlk : alookup s.state i.id with
  | none =>
    cases ha : a s.calls.length (AdapterCall.create (i.id ++ ": " ++ i.title)
        (normalizeStatus i.status) (extract_human_summary i.raw_block)
        i.complexity i.layers) with
    | ok tid =>
      refine Or.inl ⟨tid, (by first | rfl | exact hlk), (by first | rfl | exact ha), ?_⟩
      simp only [processIssue, if_neg he, hlk, doCall_snd, ha, doCall_ok_fst a s _ tid ha]
      rfl
    | error e =>
      refine Or.inr (Or.inl ⟨e, (by first | rfl | exact hlk), ?_⟩)
      simp only [processIssue, if_neg he, hlk, doCall_snd, ha, doCall_err_fst a s _ e ha]
      rfl
  | some ti =>
    by_cases hst : ti.last_status = normalizeStatus i.status
    · -- status unchanged
      by_cases hdc : ti.description_hash ≠
            some (pyHash g (extract_human_summary i.raw_block)) ∧
          extract_human_summary i.raw_block ≠ "" ∧
          ti.description_hash.isSome = true
      · -- description push
        cases ha : a s.calls.length (AdapterCall.update_description ti.tracker_id
            (extract_human_summary i.raw_block)) with
        | ok v =>
          refine Or.inr (Or.inr (Or.inr (Or.inr (Or.inl ⟨ti, v, (by first | rfl | exact hlk), hst,
            hdc.1, hdc.2.1, hdc.2.2, (by first | rfl | exact ha), ?_⟩))))
          simp only [processIssue, if_neg he, hlk, if_neg (not_not_intro hst),
            if_pos hdc, doCall_snd, ha, doCall_ok_fst a s _ v ha]
          rfl
        | error e =>
          refine Or.inr (Or.inr (Or.inr (Or.inr (Or.inr (Or.inl ⟨ti, e, (by first | rfl | exact hlk), hst,
            hdc.1, hdc.2.1, hdc.2.2, ?_⟩)))))
          simp only [processIssue, if_neg he, hlk, if_neg (not_not_intro hst),
            if_pos hdc, doCall_snd, ha, doCall_err_fst a s _ e ha]
          rfl
      · -- unchanged
        cases hh : ti.description_hash with
        | none =>
          rw [hh] at hdc
          refine Or.inr (Or.inr (Or.inr (Or.inr (Or.inr (Or.inr (Or.inl
            ⟨ti, (by first | rfl | exact hlk), hst, (by first | rfl | exact hh), ?_⟩))))))
          simp only [processIssue, if_neg he, hlk, if_neg (not_not_intro hst),
            hh, if_neg hdc, Option.isNone_none]
          rfl
        | some hd =>
          rw [hh] at hdc
          refine Or.inr (Or.inr (Or.inr (Or.inr (Or.inr (Or.inr (Or.inr
            ⟨ti, hd, (by first | rfl | exact hlk), hst, (by first | rfl | exact hh), ?_, ?_⟩))))))
          · -- hd = current hash or empty summary, from the failed elif guard
            by_cases hhd : hd = pyHash g (extract_human_summary i.raw_block)
            · exact Or.inl hhd
            · refine Or.inr (by_contra fun hsum => hdc ⟨?_, hsum, rfl⟩)
              intro hcon
              exact hhd (Option.some.inj hcon)
          · simp only [processIssue, if_neg he, hlk, if_neg (not_not_intro hst),
              hh, if_neg hdc, Option.isNone_some]
            rfl
    · -- status changed
      cases ha : a s.calls.length (AdapterCall.update_status ti.tracker_id
          (normalizeStatus i.status)) with
      | ok v =>
        refine Or.inr (Or.inr (Or.inl ⟨ti, v, (by first | rfl | exact hlk), hst, (by first | rfl | exact ha), ?_⟩))
        simp only [processIssue, if_neg he, hlk, if_pos hst, doCall_snd, ha,
          doCall_ok_fst a s _ v ha]
        rfl
      | error e =>
        refine Or.inr (Or.inr (Or.inr (Or.inl ⟨ti, e, (by first | rfl | exact hlk), hst, ?_⟩)))
        simp only [processIssue, if_neg he, hlk, if_pos hst, doCall_snd, ha,
          doCall_err_fst a s _ e ha]
        rfl

/-- A create/update step never touches other keys' bindings. -/
theorem processIssue_lookup_other (a : AdapterOracle) (d : Bool) (g : String → String)
    (s : SyncSt) (i : Issue) (k : String) (hk : k ≠ i.id) :
    alookup (processIssue a d g s i).state k = alookup s.state k := by
  have hne : ¬ (i.id = k) := fun hh => hk hh.symm
  simp only [processIssue]
  repeat' split
  all_goals simp [doCall_state, alookup_aset, hne]

theorem mainFold_lookup_other (a : AdapterOracle) (d : Bool) (g : String → String)
    (l : List Issue) (s : SyncSt) (k : String) (hk : ∀ i ∈ l, k ≠ i.id) :
    alookup (l.foldl (processIssue a d g) s).state k = alookup s.state k := by
  induction l generalizing s with
  | nil => rfl
  | cons i t ih =>
    rw [List.foldl_cons, ih _ (fun i2 hi2 => hk i2 (List.mem_cons_of_mem i hi2)),
      processIssue_lookup_other a d g s i k (hk i (List.mem_cons_self i t))]

/-- After its own successful non-dry step, an issue's binding carries the
normalized status and a recorded fingerprint that matches the current
one unless its summary is empty. -/
theorem processIssue_post_self (a : AdapterOracle) (g : String → String) (s : SyncSt)
    (i : Issue) (herr : s.error = none)
    (hstale : ∀ ti, alookup s.state i.id = some ti →
      ti.last_status ≠ normalizeStatus i.status →
      ti.description_hash = none ∨
        ti.description_hash = some (pyHash g (extract_human_summary i.raw_block)))
    (hok : (processIssue a false g s i).error = none) :
    ∃ tid hd,
      alookup (processIssue a false g s i).state i.id =
        some ⟨tid, normalizeStatus i.status, some hd⟩ ∧
      (hd = pyHash g (extract_human_summary i.raw_block) ∨
        extract_human_summary i.raw_block = "") := by
  rcases processIssue_shape a g s i herr with
    ⟨tid, h1, h2, h3⟩ | ⟨e, h1, h3⟩ | ⟨ti, v, h1, h2, hA, h3⟩ | ⟨ti, e, h1, h2, h3⟩ |
    ⟨ti, v, h1, h2, hg1, hg2, hg3, hA, h3⟩ | ⟨ti, e, h1, h2, hg1, hg2, hg3, h3⟩ |
    ⟨ti, h1, h2, hh, h3⟩ | ⟨ti, hd, h1, h2, hh, hcase, h3⟩
  · refine ⟨tid, pyHash g (extract_human_summary i.raw_block), ?_, Or.inl rfl⟩
    rw [h3]
    show alookup (aset s.state i.id _) i.id = _
    rw [alookup_aset, if_pos rfl]
  · rw [h3] at hok; exact Option.noConfusion hok
  · rcases hstale ti h1 h2 with hnone | hsome
    · refine ⟨ti.tracker_id, pyHash g (extract_human_summary i.raw_block), ?_, Or.inl rfl⟩
      rw [h3]
      show alookup (aset s.state i.id _) i.id = _
      rw [alookup_aset, if_pos rfl, hnone]
      rfl
    · refine ⟨ti.tracker_id, pyHash g (extract_human_summary i.raw_block), ?_, Or.inl rfl⟩
      rw [h3]
      show alookup (aset s.state i.id _) i.id = _
      rw [alookup_aset, if_pos rfl, hsome]
      rfl
  · rw [h3] at hok; exact Option.noConfusion hok
  · refine ⟨ti.tracker_id, pyHash g (extract_human_summary i.raw_block), ?_, Or.inl rfl⟩
    rw [h3]
    show alookup (aset s.state i.id _) i.id = _
    rw [alookup_aset, if_pos rfl, h2]
  · rw [h3] at hok; exact Option.noConfusion hok
  · refine ⟨ti.tracker_id, pyHash g (extract_human_summary i.raw_block), ?_, Or.inl rfl⟩
    rw [h3]
    show alookup (aset s.state i.id _) i.id = _
    rw [alookup_aset, if_pos rfl, h2]
  · refine ⟨ti.tracker_id, hd, ?_, hcase⟩
    rw [h3]
    show alookup s.state i.id = _
    rw [h1, ← h2, ← hh]

/-- Main-loop post-state characterization over a whole successful pass. -/
theorem mainFold_post (a : AdapterOracle) (g : String → String) (l : List Issue)
    (s : SyncSt)
    (hnd : (l.map Issue.id).Nodup)
    (hstale : ∀ i ∈ l, ∀ ti, alookup s.state i.id = some ti →
      ti.last_status ≠ normalizeStatus i.status →
      ti.description_hash = none ∨
        ti.description_hash = some (pyHash g (extract_human_summary i.raw_block)))
    (hok : (l.foldl (processIssue a false g) s).error = none) :
    ∀ i ∈ l, ∃ tid hd,
      alookup (l.foldl (processIssue a false g) s).state i.id =
        some ⟨tid, normalizeStatus i.status, some hd⟩ ∧
      (hd = pyHash g (extract_human_summary i.raw_block) ∨
        extract_human_summary i.raw_block = "") := by
  induction l generalizing s with
  | nil => intro i hi; cases hi
  | cons i0 t ih =>
    rw [List.foldl_cons] at hok ⊢
    have herr : s.error = none := by
      refine foldl_error_none_backward _
        (fun s2 x h2 => processIssue_absorb a false g s2 x h2) s (i0 :: t) ?_
      rw [List.foldl_cons]; exact hok
    have hstep_err : (processIssue a false g s i0).error = none :=
      foldl_error_none_backward _
        (fun s2 x h2 => processIssue_absorb a false g s2 x h2) _ t hok
    rw [List.map_cons, List.nodup_cons] at hnd
    intro i hi
    rcases List.mem_cons.mp hi with rfl | hit
    · obtain ⟨tid, hd, hpost, hcase⟩ := processIssue_post_self a g s i herr
        (fun ti h1 h2 => hstale i (List.mem_cons_self i t) ti h1 h2) hstep_err
      refine ⟨tid, hd, ?_, hcase⟩
      rw [mainFold_lookup_other a false g t _ i.id
        (fun j hj hcon => hnd.1 (by rw [hcon]; exact List.mem_map_of_mem Issue.id hj)),
        hpost]
    · refine ih _ hnd.2 ?_ hok i hit
      intro j hj ti h1 h2
      have hne : j.id ≠ i0.id :=
        fun hcon => hnd.1 (by rw [← hcon]; exact List.mem_map_of_mem Issue.id hj)
      refine hstale j (List.mem_cons_of_mem i0 hj) ti ?_ h2
      rw [← h1, processIssue_lookup_other a false g s i0 j.id hne]

/-- A step on an issue whose binding already matches is a pure
`unchanged` bump: no call, no state change. -/
theorem processIssue_quiet (a : AdapterOracle) (g : String → String) (s : SyncSt)
    (i : Issue) (herr : s.error = none) (tid hd : String)
    (hlk : alookup s.state i.id = some ⟨tid, normalizeStatus i.status, some hd⟩)
    (hcase : hd = pyHash g (extract_human_summary i.raw_block) ∨
      extract_human_summary i.raw_block = "") :
    processIssue a false g s i = { s with unchanged := s.unchanged + 1 } := by
  rcases processIssue_shape a g s i herr with
    ⟨tid2, h1, h2, h3⟩ | ⟨e, h1, h3⟩ | ⟨ti, v, h1, h2, hA, h3⟩ | ⟨ti, e, h1, h2, h3⟩ |
    ⟨ti, v, h1, h2, hg1, hg2, hg3, hA, h3⟩ | ⟨ti, e, h1, h2, hg1, hg2, hg3, h3⟩ |
    ⟨ti, h1, h2, hh, h3⟩ | ⟨ti, hd2, h1, h2, hh, hcase2, h3⟩
  · rw [hlk] at h1; cases h1
  · rw [hlk] at h1; cases h1
  · rw [hlk] at h1
    cases Option.some.inj h1
    exact absurd rfl h2
  · rw [hlk] at h1
    cases Option.some.inj h1
    exact absurd rfl h2
  · rw [hlk] at h1
    cases Option.some.inj h1
    rcases hcase with hcc | hcc
    · exact absurd (congrArg some hcc) hg1
    · exact absurd hcc hg2
  · rw [hlk] at h1
    cases Option.some.inj h1
    rcases hcase with hcc | hcc
    · exact absurd (congrArg some hcc) hg1
    · exact absurd hcc hg2
  · rw [hlk] at h1
    cases Option.some.inj h1
    cases hh
  · exact h3

theorem mainFold_quiet (a : AdapterOracle) (g : String → String) (l : List Issue)
    (s : SyncSt) (herr : s.error = none)
    (hpost : ∀ i ∈ l, ∃ tid hd,
      alookup s.state i.id = some ⟨tid, normalizeStatus i.status, some hd⟩ ∧
      (hd = pyHash g (extract_human_summary i.raw_block) ∨
        extract_human_summary i.raw_block = "")) :
    l.foldl (processIssue a false g) s = { s with unchanged := s.unchanged + l.length } := by
  induction l generalizing s with
  | nil =>
    obtain ⟨st, cr, up, un, ar, ca, er⟩ := s
    simp
  | cons i t ih =>
    obtain ⟨tid, hd, hlk, hcase⟩ := hpost i (List.mem_cons_self i t)
    rw [List.foldl_cons, processIssue_quiet a g s i herr tid hd hlk hcase,
      ih { s with unchanged := s.unchanged + 1 } herr
        (fun j hj => hpost j (List.mem_cons_of_mem i hj))]
    obtain ⟨st, cr, up, un, ar, ca, er⟩ := s
    simp only [List.length_cons]
    congr 1
    omega

/-- Main-loop calls, over a whole pass: never an archive. -/
theorem mainFold_calls (a : AdapterOracle) (d : Bool) (g : String → String)
    (l : List Issue) (s : SyncSt) :
    ∃ ex, (l.foldl (processIssue a d g) s).calls = s.calls ++ ex ∧
      ∀ c ∈ ex, ∀ tid, c ≠ AdapterCall.archive tid := by
  induction l generalizing s with
  | nil => exact ⟨[], by simp, by simp⟩
  | cons i t ih =>
    rw [List.foldl_cons]
    obtain ⟨ex1, h1, h2⟩ := processIssue_calls a d g s i
    obtain ⟨ex2, g1, g2⟩ := ih (processIssue a d g s i)
    refine ⟨ex1 ++ ex2, by rw [g1, h1, List.append_assoc], ?_⟩
    intro c hc
    rcases List.mem_append.mp hc with h | h
    · exact (h2 c h).1
    · exact g2 c h

theorem alookup_eq_none_of_not_mem_akeys {α : Type} {l : List (String × α)} {k : String}
    (h : k ∉ akeys l) : alookup l k = none := by
  induction l with
  | nil => rfl
  | cons p t ih =>
    obtain ⟨k0, w⟩ := p
    rw [akeys, List.map_cons] at h
    show (if k0 = k then some w else alookup t k) = none
    rw [if_neg (fun hh => h (by rw [hh]; exact List.mem_cons_self k (akeys t)))]
    exact ih (fun hm => h (List.mem_cons_of_mem k0 hm))

theorem mem_akeys_of_alookup {α : Type} {l : List (String × α)} {k : String} {v : α}
    (h : alookup l k = some v) : k ∈ akeys l := by
  by_contra hmem
  rw [alookup_eq_none_of_not_mem_akeys hmem] at h
  cases h

theorem mem_orphanedOf {issues : List Issue} {state0 : StateMap} {k : String}
    (h1 : k ∈ akeys state0) (h2 : k ∉ issues.map Issue.id) :
    k ∈ orphanedOf issues state0 := by
  rw [orphanedOf]
  refine List.mem_filter.mpr ⟨h1, ?_⟩
  simp only [Bool.not_eq_true', List.contains_eq_any_beq, List.any_eq_true, beq_iff_eq,
    Bool.not_eq_true]
  rw [List.any_eq_false]
  intro x hx hcon
  exact h2 (by rw [eq_of_beq hcon]; exact hx)

theorem not_mem_ids_of_mem_orphanedOf {issues : List Issue} {state0 : StateMap}
    {j : String} (h : j ∈ orphanedOf issues state0) : j ∉ issues.map Issue.id := by
  rw [orphanedOf] at h
  have hp := (List.mem_filter.mp h).2
  intro hmem
  rw [Bool.not_eq_true', List.contains_eq_any_beq, List.any_eq_false] at hp
  exact hp j hmem (beq_self_eq_true j)

/-- After a successful non-dry pass every remaining binding belongs to a
current issue id. -/
theorem syncCore_keys_subset (a : AdapterOracle) (g : String → String)
    (issues : List Issue) (state0 : StateMap)
    (hok : (syncCore a false g issues state0).error = none) :
    ∀ k, (alookup (syncCore a false g issues state0).state k).isSome = true →
      k ∈ issues.map Issue.id := by
  intro k hk
  by_contra hmem
  simp only [syncCore] at hok hk
  have horph_err :
      ((orphanedOf issues state0).foldl (archiveOrphan a false)
        { state := state0 }).error = none :=
    foldl_error_none_backward _
      (fun s2 x h2 => processIssue_absorb a false g s2 x h2) _ issues hok
  have hafter : alookup ((orphanedOf issues state0).foldl (archiveOrphan a false)
      { state := state0 }).state k = none := by
    by_cases hks : k ∈ akeys state0
    · exact orphanFold_lookup_none a _ _ horph_err k (mem_orphanedOf hks hmem)
    · exact orphanFold_lookup_none_mono a false _ _ k
        (alookup_eq_none_of_not_mem_akeys hks)
  rw [mainFold_lookup_other a false g issues _ k
    (fun i hi hcon => hmem (by rw [hcon]; exact List.mem_map_of_mem Issue.id hi)),
    hafter] at hk
  cases hk

/-- A non-dry pass over a state whose every binding belongs to a current
issue and already matches it is fully quiescent: every issue unchanged,
no calls, no error, no archives. -/
theorem syncCore_quiescent (a : AdapterOracle) (g : String → String) (issues : List Issue)
    (st : StateMap)
    (hkeys : ∀ k, (alookup st k).isSome = true → k ∈ issues.map Issue.id)
    (hpost : ∀ i ∈ issues, ∃ tid hd,
      alookup st i.id = some ⟨tid, normalizeStatus i.status, some hd⟩ ∧
      (hd = pyHash g (extract_human_summary i.raw_block) ∨
        extract_human_summary i.raw_block = "")) :
    (syncCore a false g issues st).created = 0 ∧
    (syncCore a false g issues st).updated = 0 ∧
    (syncCore a false g issues st).archived = 0 ∧
    (syncCore a false g issues st).unchanged = issues.length ∧
    (syncCore a false g issues st).calls = [] ∧
    (syncCore a false g issues st).error = none := by
  have horph : orphanedOf issues st = [] := by
    rw [orphanedOf, List.filter_eq_nil_iff]
    intro j hj hcon
    rw [Bool.not_eq_true'] at hcon
    rw [List.contains_eq_any_beq, List.any_eq_false] at hcon
    exact hcon j (hkeys j (alookup_isSome_of_mem_akeys hj)) (beq_self_eq_true j)
  simp only [syncCore, horph, List.foldl_nil]
  rw [mainFold_quiet a g issues { state := st } rfl hpost]
  exact ⟨rfl, rfl, rfl, by simp, rfl, rfl⟩

theorem doCall_created (a : AdapterOracle) (s : SyncSt) (c : AdapterCall) :
    (doCall a s c).1.created = s.created := by
  rw [doCall]; cases a s.calls.length c <;> rfl

theorem doCall_archived (a : AdapterOracle) (s : SyncSt) (c : AdapterCall) :
    (doCall a s c).1.archived = s.archived := by
  rw [doCall]; cases a s.calls.length c <;> rfl

/-- The create/update loop never touches the archived counter, in either
mode and whatever the adapter responds. -/
theorem processIssue_archived (a : AdapterOracle) (d : Bool) (g : String → String)
    (s : SyncSt) (i : Issue) : (processIssue a d g s i).archived = s.archived := by
  simp only [processIssue]
  repeat' split
  all_goals simp [doCall_archived]

theorem mainFold_archived (a : AdapterOracle) (d : Bool) (g : String → String)
    (l : List Issue) (s : SyncSt) :
    (l.foldl (processIssue a d g) s).archived = s.archived := by
  induction l generalizing s with
  | nil => rfl
  | cons i t ih => rw [List.foldl_cons, ih, processIssue_archived]

/-- A step on an already-tracked issue never increments the created
counter, in either mode and whatever the adapter responds. -/
theorem processIssue_created_tracked (a : AdapterOracle) (d : Bool) (g : String → String)
    (s : SyncSt) (i : Issue) (h : (alookup s.state i.id).isSome = true) :
    (processIssue a d g s i).created = s.created := by
  cases he : s.error with
  | some e => rw [processIssue_absorb a d g s i (by rw [he]; rfl)]
  | none =>
    have he2 : ¬ (s.error.isSome = true) := by rw [he]; simp
    cases hlk : alookup s.state i.id with
    | none => rw [hlk] at h; cases h
    | some ti =>
      simp only [processIssue, if_neg he2, hlk]
      repeat' split
      all_goals simp [doCall_created]

/-- A create/update step never deletes a binding (any key, any mode). -/
theorem processIssue_lookup_isSome_mono (a : AdapterOracle) (d : Bool)
    (g : String → String) (s : SyncSt) (i : Issue) (k : String)
    (h : (alookup s.state k).isSome = true) :
    (alookup (processIssue a d g s i).state k).isSome = true := by
  by_cases hk : i.id = k
  · subst hk
    simp only [processIssue]
    repeat' split
    all_goals simp [doCall_state, alookup_aset, h]
  · rw [processIssue_lookup_other a d g s i k (fun hh => hk hh.symm)]
    exact h

theorem mainFold_lookup_isSome_mono (a : AdapterOracle) (d : Bool) (g : String → String)
    (l : List Issue) (s : SyncSt) (k : String)
    (h : (alookup s.state k).isSome = true) :
    (alookup (l.foldl (processIssue a d g) s).state k).isSome = true := by
  induction l generalizing s with
  | nil => exact h
  | cons i t ih =>
    rw [List.foldl_cons]
    exact ih _ (processIssue_lookup_isSome_mono a d g s i k h)

/-- After its own successful non-dry step an issue carries a binding. -/
theorem processIssue_post_isSome (a : AdapterOracle) (g : String → String) (s : SyncSt)
    (i : Issue) (herr : s.error = none)
    (hok : (processIssue a false g s i).error = none) :
    (alookup (processIssue a false g s i).state i.id).isSome = true := by
  rcases processIssue_shape a g s i herr with
    ⟨tid, h1, h2, h3⟩ | ⟨e, h1, h3⟩ | ⟨ti, v, h1, h2, hA, h3⟩ | ⟨ti, e, h1, h2, h3⟩ |
    ⟨ti, v, h1, h2, hg1, hg2, hg3, hA, h3⟩ | ⟨ti, e, h1, h2, hg1, hg2, hg3, h3⟩ |
    ⟨ti, h1, h2, hh, h3⟩ | ⟨ti, hd, h1, h2, hh, hcase, h3⟩
  · rw [h3]
    show (alookup (aset s.state i.id _) i.id).isSome = true
    rw [alookup_aset, if_pos rfl]
    rfl
  · rw [h3] at hok; exact Option.noConfusion hok
  · rw [h3]
    show (alookup (aset s.state i.id _) i.id).isSome = true
    rw [alookup_aset, if_pos rfl]
    rfl
  · rw [h3] at hok; exact Option.noConfusion hok
  · rw [h3]
    show (alookup (aset s.state i.id _) i.id).isSome = true
    rw [alookup_aset, if_pos rfl]
    rfl
  · rw [h3] at hok; exact Option.noConfusion hok
  · rw [h3]
    show (alookup (aset s.state i.id _) i.id).isSome = true
    rw [alookup_aset, if_pos rfl]
    rfl
  · rw [h3]
    show (alookup s.state i.id).isSome = true
    rw [h1]
    rfl

/-- After a whole successful non-dry pass every processed issue carries
a binding (no distinctness of ids needed). -/
theorem mainFold_post_isSome (a : AdapterOracle) (g : String → String)
    (l : List Issue) (s : SyncSt)
    (hok : (l.foldl (processIssue a false g) s).error = none) :
    ∀ i ∈ l, (alookup (l.foldl (processIssue a false g) s).state i.id).isSome = true := by
  induction l generalizing s with
  | nil => intro i hi; cases hi
  | cons i0 t ih =>
    rw [List.foldl_cons] at hok ⊢
    have herr : s.error = none := by
      refine foldl_error_none_backward _
        (fun s2 x h2 => processIssue_absorb a false g s2 x h2) s (i0 :: t) ?_
      rw [List.foldl_cons]; exact hok
    have hstep_err : (processIssue a false g s i0).error = none :=
      foldl_error_none_backward _
        (fun s2 x h2 => processIssue_absorb a false g s2 x h2) _ t hok
    intro i hi
    rcases List.mem_cons.mp hi with rfl | hit
    · exact mainFold_lookup_isSome_mono a false g t _ i.id
        (processIssue_post_isSome a g s i herr hstep_err)
    · exact ih _ hok i hit

/-- The main loop performs no create when every issue it processes is
already tracked on entry, whatever the adapter responds. -/
theorem mainFold_created_tracked (a : AdapterOracle) (d : Bool) (g : String → String)
    (l : List Issue) (s : SyncSt)
    (h : ∀ i ∈ l, (alookup s.state i.id).isSome = true) :
    (l.foldl (processIssue a d g) s).created = s.created := by
  induction l generalizing s with
  | nil => rfl
  | cons i t ih =>
    rw [List.foldl_cons,
      ih _ (fun j hj => processIssue_lookup_isSome_mono a d g s i j.id
        (h j (List.mem_cons_of_mem i hj))),
      processIssue_created_tracked a d g s i (h i (List.mem_cons_self i t))]

/-- A non-dry pass over a state whose bindings all belong to current
issues and whose every issue is already tracked performs no create and
no archive, whatever the adapter responds. -/
theorem syncCore_no_create_no_archive (a : AdapterOracle) (g : String → String)
    (issues : List Issue) (st : StateMap)
    (hkeys : ∀ k, (alookup st k).isSome = true → k ∈ issues.map Issue.id)
    (htracked : ∀ i ∈ issues, (alookup st i.id).isSome = true) :
    (syncCore a false g issues st).created = 0 ∧
    (syncCore a false g issues st).archived = 0 := by
  have horph : orphanedOf issues st = [] := by
    rw [orphanedOf, List.filter_eq_nil_iff]
    intro j hj hcon
    rw [Bool.not_eq_true'] at hcon
    rw [List.contains_eq_any_beq, List.any_eq_false] at hcon
    exact hcon j (hkeys j (alookup_isSome_of_mem_akeys hj)) (beq_self_eq_true j)
  simp only [syncCore, horph, List.foldl_nil]
  refine ⟨?_, ?_⟩
  · rw [mainFold_created_tracked a false g issues { state := st } htracked]
  · rw [mainFold_archived]

/-- Claim C1 (amended): after a first sync that completed without an
adapter error, running the sync again with no document changes and no
external state changes always yields zero created and zero archived
actions on the second run, whatever the adapter responds; if moreover
the parsed issue ids are distinct and no issue entered the first run
with both a status change and an already-recorded description
fingerprint differing from the current one, the second run is fully
quiescent: zero updated actions, every issue reported unchanged, no
adapter calls, no error.  The claim's counterexample shows that last
proviso is needed for the quiescence half: a status change alongside a
stale recorded fingerprint makes the second run push the description. -/
theorem C1_second_run_quiescent (adapter1 adapter2 : AdapterOracle)
    (digest : String → String) (issues : List Issue) (state0 : StateMap)
    (hok : (syncCore adapter1 false digest issues state0).error = none) :
    ((syncCore adapter2 false digest issues
        (syncCore adapter1 false digest issues state0).state).created = 0 ∧
      (syncCore adapter2 false digest issues
        (syncCore adapter1 false digest issues state0).state).archived = 0) ∧
    (((issues.map Issue.id).Nodup ∧
        ∀ i ∈ issues, ∀ ti, alookup state0 i.id = some ti →
          ti.last_status ≠ normalizeStatus i.status →
          ti.description_hash = none ∨
            ti.description_hash =
              some (pyHash digest (extract_human_summary i.raw_block))) →
      (syncCore adapter2 false digest issues
          (syncCore adapter1 false digest issues state0).state).updated = 0 ∧
      (syncCore adapter2 false digest issues
          (syncCore adapter1 false digest issues state0).state).unchanged =
        issues.length ∧
      (syncCore adapter2 false digest issues
          (syncCore adapter1 false digest issues state0).state).calls = [] ∧
      (syncCore adapter2 false digest issues
          (syncCore adapter1 false digest issues state0).state).error = none) := by
  have hkeys := syncCore_keys_subset adapter1 digest issues state0 hok
  constructor
  · refine syncCore_no_create_no_archive adapter2 digest issues _ hkeys ?_
    intro i hi
    simp only [syncCore] at hok ⊢
    exact mainFold_post_isSome adapter1 digest issues _ hok i hi
  · rintro ⟨hids, hstale⟩
    have hpost : ∀ i ∈ issues, ∃ tid hd,
        alookup (syncCore adapter1 false digest issues state0).state i.id =
          some ⟨tid, normalizeStatus i.status, some hd⟩ ∧
        (hd = pyHash digest (extract_human_summary i.raw_block) ∨
          extract_human_summary i.raw_block = "") := by
      simp only [syncCore] at hok ⊢
      refine mainFold_post adapter1 digest issues _ hids ?_ hok
      intro i hi ti h1 h2
      refine hstale i hi ti ?_ h2
      have hpres := orphanFold_lookup_other adapter1 false (orphanedOf issues state0)
        { state := state0 } i.id
        (fun j hj hcon => not_mem_ids_of_mem_orphanedOf hj
          (by rw [← hcon]; exact List.mem_map_of_mem Issue.id hi))
      rw [← h1, hpres]
    obtain ⟨-, c2, -, c4, c5, c6⟩ :=
      syncCore_quiescent adapter2 digest issues _ hkeys hpost
    exact ⟨c2, c4, c5, c6⟩

/-- Claim C1 witness: a fresh one-issue first sync followed by a second
sync; the second run creates and archives nothing, and (the proviso
holding vacuously on the empty starting store) is fully quiescent. -/
theorem C1_witness :
    ((syncCore okAdapter false idDigest [demoIssue]
        (syncCore okAdapter false idDigest [demoIssue] []).state).created = 0 ∧
      (syncCore okAdapter false idDigest [demoIssue]
        (syncCore okAdapter false idDigest [demoIssue] []).state).archived = 0) ∧
    ((([demoIssue].map Issue.id).Nodup ∧
        ∀ i ∈ [demoIssue], ∀ ti, alookup ([] : StateMap) i.id = some ti →
          ti.last_status ≠ normalizeStatus i.status →
          ti.description_hash = none ∨
            ti.description_hash =
              some (pyHash idDigest (extract_human_summary i.raw_block))) →
      (syncCore okAdapter false idDigest [demoIssue]
          (syncCore okAdapter false idDigest [demoIssue] []).state).updated = 0 ∧
      (syncCore okAdapter false idDigest [demoIssue]
          (syncCore okAdapter false idDigest [demoIssue] []).state).unchanged =
        [demoIssue].length ∧
      (syncCore okAdapter false idDigest [demoIssue]
          (syncCore okAdapter false idDigest [demoIssue] []).state).calls = [] ∧
      (syncCore okAdapter false idDigest [demoIssue]
          (syncCore okAdapter false idDigest [demoIssue] []).state).error = none) :=
  C1_second_run_quiescent okAdapter okAdapter idDigest [demoIssue] [] (by rfl)

/-- Exactly one archive call for the orphan's tracker id appears in the
orphan-phase call list, under the store invariant that no two entries
share a tracker id. -/
theorem orphanArchive_count (state0 : StateMap) (ent : StateEntry) (iid : String)
    (l : List String) (hnd : l.Nodup) (hmem : iid ∈ l)
    (hiid : alookup state0 iid = some ent)
    (huniq : ∀ k e2, alookup state0 k = some e2 →
      e2.tracker_id = ent.tracker_id → k = iid) :
    (l.filterMap (fun j => (alookup state0 j).map
      (fun e2 => AdapterCall.archive e2.tracker_id))).count
        (AdapterCall.archive ent.tracker_id) = 1 := by
  induction l with
  | nil => cases hmem
  | cons j t ih =>
    rw [List.filterMap_cons]
    by_cases hj : j = iid
    · rw [hj, hiid]
      show ((AdapterCall.archive ent.tracker_id) :: t.filterMap
        (fun j2 => (alookup state0 j2).map
          (fun e2 => AdapterCall.archive e2.tracker_id))).count
        (AdapterCall.archive ent.tracker_id) = 1
      rw [List.count_cons_self]
      have hz : (t.filterMap (fun j2 => (alookup state0 j2).map
          (fun e2 => AdapterCall.archive e2.tracker_id))).count
          (AdapterCall.archive ent.tracker_id) = 0 := by
        rw [List.count_eq_zero]
        intro hmem2
        rcases List.mem_filterMap.mp hmem2 with ⟨j2, hj2, hmap⟩
        rcases Option.map_eq_some'.mp hmap with ⟨e2, he2, heq⟩
        have htid : e2.tracker_id = ent.tracker_id := by
          injection heq
        have hj2id : j2 = iid := huniq j2 e2 he2 htid
        exact (List.nodup_cons.mp hnd).1 (by rw [hj, ← hj2id]; exact hj2)
      rw [hz]
    · have hmt : iid ∈ t := by
        rcases List.mem_cons.mp hmem with rfl | h
        · exact absurd rfl hj
        · exact h
      cases hread : alookup state0 j with
      | none =>
        show (t.filterMap (fun j2 => (alookup state0 j2).map
          (fun e2 => AdapterCall.archive e2.tracker_id))).count
          (AdapterCall.archive ent.tracker_id) = 1
        exact ih (List.nodup_cons.mp hnd).2 hmt
      | some e2 =>
        show ((AdapterCall.archive e2.tracker_id) :: t.filterMap
          (fun j2 => (alookup state0 j2).map
            (fun e2 => AdapterCall.archive e2.tracker_id))).count
          (AdapterCall.archive ent.tracker_id) = 1
        have hne : AdapterCall.archive ent.tracker_id ≠ AdapterCall.archive e2.tracker_id := by
          intro hcc
          have htid : e2.tracker_id = ent.tracker_id := by
            injection hcc with h
            exact h.symm
          exact hj (huniq j e2 hread htid)
        rw [List.count_cons_of_ne hne]
        exact ih (List.nodup_cons.mp hnd).2 hmt

/-- Claim C5: an entry whose issue id is absent from the current parse is
archived exactly once by a successful non-dry pass, every archive call
precedes every create/update call, and the entry is gone from the state
afterwards.  The uniqueness hypothesis is the store invariant (§3 of the
spec) that no two entries point at the same tracker id. -/
theorem C5_orphan_archival (adapter : AdapterOracle) (digest : String → String)
    (issues : List Issue) (state0 : StateMap) (iid : String) (ent : StateEntry)
    (hnd : (akeys state0).Nodup)
    (hlk : alookup state0 iid = some ent)
    (habs : iid ∉ issues.map Issue.id)
    (huniq : ∀ k e2, alookup state0 k = some e2 →
      e2.tracker_id = ent.tracker_id → k = iid)
    (hok : (syncCore adapter false digest issues state0).error = none) :
    alookup (syncCore adapter false digest issues state0).state iid = none ∧
    ∃ pre post,
      (syncCore adapter false digest issues state0).calls = pre ++ post ∧
      (∀ c ∈ pre, ∃ tid, c = AdapterCall.archive tid) ∧
      (∀ c ∈ post, ∀ tid, c ≠ AdapterCall.archive tid) ∧
      pre.count (AdapterCall.archive ent.tracker_id) = 1 := by
  simp only [syncCore] at hok ⊢
  have horph_err :
      ((orphanedOf issues state0).foldl (archiveOrphan adapter false)
        { state := state0 }).error = none :=
    foldl_error_none_backward _
      (fun s2 x h2 => processIssue_absorb adapter false digest s2 x h2) _ issues hok
  have hmem0 : iid ∈ akeys state0 := mem_akeys_of_alookup hlk
  have hiid_orph : iid ∈ orphanedOf issues state0 := mem_orphanedOf hmem0 habs
  have hnd_orph : (orphanedOf issues state0).Nodup := hnd.filter _
  constructor
  · have h1 : alookup ((orphanedOf issues state0).foldl (archiveOrphan adapter false)
        { state := state0 }).state iid = none :=
      orphanFold_lookup_none adapter _ _ horph_err iid hiid_orph
    rw [mainFold_lookup_other adapter false digest issues _ iid
      (fun i hi hcon => habs (by rw [hcon]; exact List.mem_map_of_mem Issue.id hi)), h1]
  · obtain ⟨ex, hex_calls, hex⟩ := mainFold_calls adapter false digest issues
      ((orphanedOf issues state0).foldl (archiveOrphan adapter false) { state := state0 })
    have horph_calls := orphanFold_calls adapter (orphanedOf issues state0)
      { state := state0 } hnd_orph horph_err
    refine ⟨(orphanedOf issues state0).filterMap (fun j => (alookup state0 j).map
      (fun e2 => AdapterCall.archive e2.tracker_id)), ex, ?_, ?_, ?_, ?_⟩
    · rw [hex_calls, horph_calls]
      simp
    · intro c hc
      rcases List.mem_filterMap.mp hc with ⟨j, hj, hmap⟩
      rcases Option.map_eq_some'.mp hmap with ⟨e2, he2, heq⟩
      exact ⟨e2.tracker_id, heq.symm⟩
    · exact fun c hc => hex c hc
    · exact orphanArchive_count state0 ent iid _ hnd_orph hiid_orph hlk huniq

/-- Claim C5 witness: a store with one entry and an empty document —
the entry is archived once and removed. -/
theorem C5_witness :
    alookup (syncCore okAdapter false idDigest []
        [("ISSUE-9", (⟨"t9", "done", none⟩ : StateEntry))]).state "ISSUE-9" = none ∧
    ∃ pre post,
      (syncCore okAdapter false idDigest []
          [("ISSUE-9", (⟨"t9", "done", none⟩ : StateEntry))]).calls = pre ++ post ∧
      (∀ c ∈ pre, ∃ tid, c = AdapterCall.archive tid) ∧
      (∀ c ∈ post, ∀ tid, c ≠ AdapterCall.archive tid) ∧
      pre.count (AdapterCall.archive "t9") = 1 :=
  C5_orphan_archival okAdapter idDigest [] [("ISSUE-9", ⟨"t9", "done", none⟩)]
    "ISSUE-9" ⟨"t9", "done", none⟩ (by decide) (by rfl) (by decide)
    (fun k e2 hk _ => by
      by_cases h : ("ISSUE-9" : String) = k
      · exact h.symm
      · rw [show alookup [("ISSUE-9", (⟨"t9", "done", none⟩ : StateEntry))] k =
            (if ("ISSUE-9" : String) = k then some ⟨"t9", "done", none⟩ else none)
            from rfl, if_neg h] at hk
        cases hk)
    (by rfl)

/-- Claim C7 witness: applying the amended statement inside acceptance
mode to a metadata field line and to a non-metadata bold field line. -/
theorem C7_witness :
    summaryStep ⟨[], ["☐ a"], true⟩ "**Dev notes:** x" = ⟨[], ["☐ a"], true⟩ ∧
    summaryStep ⟨[], ["☐ a"], true⟩ "**Other field:** y" = ⟨[], ["☐ a"], false⟩ :=
  ⟨(C7_field_exit_amended ⟨[], ["☐ a"], true⟩ "**Dev notes:** x" rfl).1 (by decide),
   (C7_field_exit_amended ⟨[], ["☐ a"], true⟩ "**Other field:** y" rfl).2
     (by decide) (by decide) (by decide)⟩

end IssuesSync
